import Mathlib

/-!
# HGCALTB event action: per-event signal aggregation

Shallow embedding of `HGCALTBEventAction` (files `HGCALTBEventAction.hh` and
`HGCALTBEventAction.cc`).

Modelling conventions

* `G4double` is modelled by `ℚ`: arithmetic is exact, there is no rounding, no NaN and no
  infinity. `G4int` is modelled by `Int`.
* The process-wide Gaussian generator used through `G4RandGauss::shoot` is an explicit state
  (`RandGauss`) threaded through every function that draws from it.
* The analysis manager is an explicit list of ntuple rows; `AddNtupleRow` appends one row.
* A run of `EndOfEventAction` ends in one of three ways: it returns normally, it raises the
  fatal `G4Exception` of a failed hits collection lookup (`Failure.fatal`), or it performs an
  access that C++ leaves undefined (`Failure.undefined`): an index or an iterator range past
  the end of a vector. The code has no check of its own for the latter.
* The constants of `HGCALTBConstants.hh` are parameters.
-/

namespace HGCALTB

/-! ## Constants -/

/-- Constants of the namespace `HGCALTBConstants`. The header that declares them is not part of
the sources at hand, so they are parameters of the development. -/
structure HGCALTBConstants where
  CEELayers : Nat
  CHELayers : Nat
  AHCALLayers : Nat
  CHESevenWaferLayers : Nat
  CEECells : Nat
  MIPSilicon : ℚ
  CEENoiseSigma : ℚ
  CEEThreshold : ℚ
  MIPTile : ℚ
  AHCALNoiseSigma : ℚ
  AHCALThreshold : ℚ

/-! ## Gaussian generator -/

/-- State of the process-wide Gaussian generator: the sequence of standard normal draws it
produces, and the number of draws consumed so far. -/
structure RandGauss where
  draws : Nat → ℚ
  pos : Nat

/-- External library call `G4RandGauss::shoot(mean, stdDev)`: one standard normal draw is
consumed, scaled by `stdDev` and shifted by `mean`. -/
def G4RandGauss.shoot (mean stdDev : ℚ) (g : RandGauss) : ℚ × RandGauss :=
  (g.draws g.pos * stdDev + mean, { draws := g.draws, pos := g.pos + 1 })

/-! ## Calibration, noise and cut -/

/-- Lambda `ApplyHGCALCut` of `EndOfEventAction` (CEE and CHE cells). -/
def ApplyHGCALCut (c : HGCALTBConstants) (partialsum signal : ℚ) (g : RandGauss) :
    ℚ × RandGauss :=
  let calibsignal := signal / c.MIPSilicon
  let shot := G4RandGauss.shoot 0 c.CEENoiseSigma g
  let calibsignal := calibsignal + shot.1
  if calibsignal > c.CEEThreshold then (partialsum + calibsignal, shot.2)
  else (partialsum, shot.2)

/-- Lambda `ApplyAHCut` of `EndOfEventAction` (AHCAL cells); it captures `MIPTile` and
`AHCALThreshold`. -/
def ApplyAHCut (c : HGCALTBConstants) (partialsum signal : ℚ) (g : RandGauss) :
    ℚ × RandGauss :=
  let calibsignal := signal / c.MIPTile
  let shot := G4RandGauss.shoot 0 c.AHCALNoiseSigma g
  let calibsignal := calibsignal + shot.1
  if calibsignal > c.AHCALThreshold then (partialsum + calibsignal, shot.2)
  else (partialsum, shot.2)

/-- The four argument `std::accumulate(first, last, init, op)` over the elements of a range,
for a binary operation that draws from the Gaussian generator. -/
def accumulate (op : ℚ → ℚ → RandGauss → ℚ × RandGauss) :
    List ℚ → ℚ → RandGauss → ℚ × RandGauss
  | [], init, g => (init, g)
  | x :: xs, init, g => accumulate op xs (op init x g).1 (op init x g).2

/-- The three argument `std::accumulate(first, last, init)`: a left fold with `+`. -/
def accumulatePlus : List ℚ → ℚ → ℚ
  | [], init => init
  | x :: xs, init => accumulatePlus xs (init + x)

/-! ## Hits collections, event, failures -/

/-- A hits collection: one hit per layer, in layer order; a hit exposes the raw signals of
its cells (`GetCEESignals`, `GetCHESignals`, `GetAHSignals`). -/
abbrev HitsCollection := List (List ℚ)

/-- The event as `EndOfEventAction` reads it: `event->GetHCofThisEvent()->GetHC(hcID)`,
where `none` is the null pointer. The event carries its table of hits collections and the
table answers for every identifier. -/
structure G4Event where
  GetHC : Int → Option HitsCollection

/-- Results of the three calls `G4SDManager::GetSDMpointer()->GetCollectionID(name)`. -/
structure G4SDManager where
  CEEHCID : Int
  CHEHCID : Int
  AHCALHCID : Int

/-- The ways in which `EndOfEventAction` does not return: the `FatalException` raised by
`G4Exception` for hits collection `hcID`, or an access that C++ leaves undefined (index or
iterator range past the end of a vector), for which the code has no check and raises
nothing. -/
inductive Failure where
  | fatal (hcID : Int)
  | undefined
  deriving DecidableEq, Repr

/-- Method `GetCEEHitsCollection`. -/
def GetCEEHitsCollection (hcID : Int) (event : G4Event) : Except Failure HitsCollection :=
  match event.GetHC hcID with
  | none => Except.error (Failure.fatal hcID)
  | some hitsCollection => Except.ok hitsCollection

/-- Method `GetCHEHitsCollection`. -/
def GetCHEHitsCollection (hcID : Int) (event : G4Event) : Except Failure HitsCollection :=
  match event.GetHC hcID with
  | none => Except.error (Failure.fatal hcID)
  | some hitsCollection => Except.ok hitsCollection

/-- Method `GetAHCALHitsCollection`. -/
def GetAHCALHitsCollection (hcID : Int) (event : G4Event) : Except Failure HitsCollection :=
  match event.GetHC hcID with
  | none => Except.error (Failure.fatal hcID)
  | some hitsCollection => Except.ok hitsCollection

/-! ## Event action state -/

/-- Data members of `HGCALTBEventAction`. -/
structure HGCALTBEventAction where
  edep : ℚ
  fIntLayer : Int
  fCEELayerSignals : List ℚ
  fCHELayerSignals : List ℚ
  fAHCALLayerSignals : List ℚ

/-- Constructor `HGCALTBEventAction::HGCALTBEventAction()`. -/
def HGCALTBEventAction.construct (c : HGCALTBConstants) : HGCALTBEventAction :=
  { edep := 0
    fIntLayer := 0
    fCEELayerSignals := List.replicate c.CEELayers 0
    fCHELayerSignals := List.replicate c.CHELayers 0
    fAHCALLayerSignals := List.replicate c.AHCALLayers 0 }

/-- Method `BeginOfEventAction` (built without `USE_CELERITAS`; the event is not read). -/
def BeginOfEventAction (self : HGCALTBEventAction) : HGCALTBEventAction :=
  { edep := 0
    fIntLayer := 0
    fCEELayerSignals := self.fCEELayerSignals.map (fun _ => 0)
    fCHELayerSignals := self.fCHELayerSignals.map (fun _ => 0)
    fAHCALLayerSignals := self.fAHCALLayerSignals.map (fun _ => 0) }

/-- Method `Addedep`. -/
def Addedep (self : HGCALTBEventAction) (stepedep : ℚ) : HGCALTBEventAction :=
  { self with edep := self.edep + stepedep }

/-- One row of the ntuple, as filled by `EndOfEventAction`: columns 0 to 5. -/
structure NtupleRow where
  edep : ℚ
  CEETot : ℚ
  CHETot : ℚ
  AHCALTot : ℚ
  HGCALTot : ℚ
  fIntLayer : Int
  deriving DecidableEq

/-- Everything `EndOfEventAction` reads or writes besides the event: the event action
itself, the Gaussian generator and the rows added to the ntuple so far. -/
structure Process where
  action : HGCALTBEventAction
  gauss : RandGauss
  ntuple : List NtupleRow

/-! ## End of event -/

/-- Loop `for (std::size_t i = 0; i < n; i++) body(i)`, where the body may fail. -/
def forLoop {σ : Type} (body : Nat → σ → Except Failure σ) : Nat → σ → Except Failure σ
  | 0, s => Except.ok s
  | n + 1, s =>
    match forLoop body n s with
    | Except.error e => Except.error e
    | Except.ok s1 => body n s1

/-- Assignment `v[i] = x` on a `std::vector`; undefined when `i` is not below the size. -/
def assignAt (v : List ℚ) (i : Nat) (x : ℚ) : Except Failure (List ℚ) :=
  if i < v.length then Except.ok (v.set i x) else Except.error Failure.undefined

/-- Body of the loop over the CEE layers. The loop state is `fCEELayerSignals` and the
generator. -/
def CEELayerBody (c : HGCALTBConstants) (CEEHC : HitsCollection) (i : Nat)
    (s : List ℚ × RandGauss) : Except Failure (List ℚ × RandGauss) :=
  match CEEHC[i]? with
  | none => Except.error Failure.undefined
  | some CEESignals =>
    let CEELayerSignal := accumulate (ApplyHGCALCut c) CEESignals 0 s.2
    match assignAt s.1 i CEELayerSignal.1 with
    | Except.error e => Except.error e
    | Except.ok v => Except.ok (v, CEELayerSignal.2)

/-- Body of the loop over the CHE layers. The loop state is `fCHELayerSignals` and the
generator. Past the seven wafer layers the range is
`CHESignals.begin() .. CHESignals.begin() + (CEECells - 1)`, which is undefined unless
`0 ≤ CEECells - 1 ≤ CHESignals.size()`. -/
def CHELayerBody (c : HGCALTBConstants) (CHEHC : HitsCollection) (i : Nat)
    (s : List ℚ × RandGauss) : Except Failure (List ℚ × RandGauss) :=
  match CHEHC[i]? with
  | none => Except.error Failure.undefined
  | some CHESignals =>
    if i < c.CHESevenWaferLayers then
      let CHELayerSignal := accumulate (ApplyHGCALCut c) CHESignals 0 s.2
      match assignAt s.1 i CHELayerSignal.1 with
      | Except.error e => Except.error e
      | Except.ok v => Except.ok (v, CHELayerSignal.2)
    else if 1 ≤ c.CEECells ∧ c.CEECells - 1 ≤ CHESignals.length then
      let CHELayerSignal :=
        accumulate (ApplyHGCALCut c) (CHESignals.take (c.CEECells - 1)) 0 s.2
      match assignAt s.1 i CHELayerSignal.1 with
      | Except.error e => Except.error e
      | Except.ok v => Except.ok (v, CHELayerSignal.2)
    else Except.error Failure.undefined

/-- Body of the loop over the AHCAL layers. The loop state is `fAHCALLayerSignals` and the
generator. -/
def AHCALLayerBody (c : HGCALTBConstants) (AHCALHC : HitsCollection) (i : Nat)
    (s : List ℚ × RandGauss) : Except Failure (List ℚ × RandGauss) :=
  match AHCALHC[i]? with
  | none => Except.error Failure.undefined
  | some AHCALSignals =>
    let AHCALLayerSignal := accumulate (ApplyAHCut c) AHCALSignals 0 s.2
    match assignAt s.1 i AHCALLayerSignal.1 with
    | Except.error e => Except.error e
    | Except.ok v => Except.ok (v, AHCALLayerSignal.2)

/-- Method `EndOfEventAction` (built without `USE_CELERITAS`). The six `FillNtuple` calls
and `AddNtupleRow` append one row to the ntuple. -/
def EndOfEventAction (c : HGCALTBConstants) (sd : G4SDManager) (event : G4Event)
    (p : Process) : Except Failure Process :=
  match GetCEEHitsCollection sd.CEEHCID event with
  | Except.error e => Except.error e
  | Except.ok CEEHC =>
  match forLoop (CEELayerBody c CEEHC) c.CEELayers (p.action.fCEELayerSignals, p.gauss) with
  | Except.error e => Except.error e
  | Except.ok s1 =>
  match GetCHEHitsCollection sd.CHEHCID event with
  | Except.error e => Except.error e
  | Except.ok CHEHC =>
  match forLoop (CHELayerBody c CHEHC) c.CHELayers (p.action.fCHELayerSignals, s1.2) with
  | Except.error e => Except.error e
  | Except.ok s2 =>
  match GetAHCALHitsCollection sd.AHCALHCID event with
  | Except.error e => Except.error e
  | Except.ok AHCALHC =>
  match forLoop (AHCALLayerBody c AHCALHC) c.AHCALLayers
      (p.action.fAHCALLayerSignals, s2.2) with
  | Except.error e => Except.error e
  | Except.ok s3 =>
    let CEETot := accumulatePlus s1.1 0
    let CHETot := accumulatePlus s2.1 0
    let AHCALTot := accumulatePlus s3.1 0
    let HGCALTot := CEETot + CHETot + AHCALTot
    Except.ok
      { action :=
          { edep := p.action.edep
            fIntLayer := p.action.fIntLayer
            fCEELayerSignals := s1.1
            fCHELayerSignals := s2.1
            fAHCALLayerSignals := s3.1 }
        gauss := s3.2
        ntuple := p.ntuple ++
          [{ edep := p.action.edep
             CEETot := CEETot
             CHETot := CHETot
             AHCALTot := AHCALTot
             HGCALTot := HGCALTot
             fIntLayer := p.action.fIntLayer }] }

/-! ## Specification side helpers -/

/-- The samples returned by `k` successive calls `G4RandGauss::shoot(0., sigma)` from
generator state `g`, in call order. -/
def noiseSamples (sigma : ℚ) : Nat → RandGauss → List ℚ
  | 0, _ => []
  | k + 1, g =>
    (G4RandGauss.shoot 0 sigma g).1 :: noiseSamples sigma k (G4RandGauss.shoot 0 sigma g).2

/-- Calibrated and noise added values of a cell list: `cell_i / divisor + n_i`, in input
order. -/
def calibrated (divisor : ℚ) (cells noise : List ℚ) : List ℚ :=
  List.zipWith (fun cell n => cell / divisor + n) cells noise

/-- Sum of the values of a list that are strictly above the threshold. -/
def sumAbove (threshold : ℚ) (xs : List ℚ) : ℚ :=
  (xs.filter (fun x => x > threshold)).sum

/-- One step of either lambda, with the policy values as arguments. -/
def cutStep (divisor sigma threshold : ℚ) (partialsum signal : ℚ) (g : RandGauss) :
    ℚ × RandGauss :=
  if signal / divisor + (G4RandGauss.shoot 0 sigma g).1 > threshold then
    (partialsum + (signal / divisor + (G4RandGauss.shoot 0 sigma g).1),
      (G4RandGauss.shoot 0 sigma g).2)
  else (partialsum, (G4RandGauss.shoot 0 sigma g).2)

/-- The cell list that the loop over the CEE layers reduces for layer `i`, or `none` when
the access is undefined. -/
def CEEUsed (CEEHC : HitsCollection) (i : Nat) : Option (List ℚ) :=
  CEEHC[i]?

/-- The cell list that the loop over the CHE layers reduces for layer `i`: the whole list
below `CHESevenWaferLayers`, its first `CEECells - 1` cells from there on, or `none` when the
access is undefined. -/
def CHEUsed (c : HGCALTBConstants) (CHEHC : HitsCollection) (i : Nat) : Option (List ℚ) :=
  match CHEHC[i]? with
  | none => none
  | some CHESignals =>
    if i < c.CHESevenWaferLayers then some CHESignals
    else if 1 ≤ c.CEECells ∧ c.CEECells - 1 ≤ CHESignals.length then
      some (CHESignals.take (c.CEECells - 1))
    else none

/-- The cell list that the loop over the AHCAL layers reduces for layer `i`, or `none` when
the access is undefined. -/
def AHCALUsed (AHCALHC : HitsCollection) (i : Nat) : Option (List ℚ) :=
  AHCALHC[i]?

/-- Number of draws consumed by the layers before layer `i` of one loop: one per reduced
cell. -/
def drawsBefore (used : Nat → Option (List ℚ)) : Nat → Nat
  | 0 => 0
  | i + 1 => drawsBefore used i + ((used i).getD []).length

/-- The generator after `k` further draws. -/
def RandGauss.advance (g : RandGauss) (k : Nat) : RandGauss :=
  { draws := g.draws, pos := g.pos + k }

/-- Loop body shared by the three loops over layers: reduce the cell list `used i` from 0
with `op` and store the result at index `i`. -/
def layerBody (op : ℚ → ℚ → RandGauss → ℚ × RandGauss) (used : Nat → Option (List ℚ))
    (i : Nat) (s : List ℚ × RandGauss) : Except Failure (List ℚ × RandGauss) :=
  match used i with
  | none => Except.error Failure.undefined
  | some cells =>
    match assignAt s.1 i (accumulate op cells 0 s.2).1 with
    | Except.error e => Except.error e
    | Except.ok v => Except.ok (v, (accumulate op cells 0 s.2).2)

/-- The process that `EndOfEventAction` returns, from the final states of its three
loops. -/
def finalProcess (p : Process) (s1 s2 s3 : List ℚ × RandGauss) : Process :=
  { action :=
      { edep := p.action.edep
        fIntLayer := p.action.fIntLayer
        fCEELayerSignals := s1.1
        fCHELayerSignals := s2.1
        fAHCALLayerSignals := s3.1 }
    gauss := s3.2
    ntuple := p.ntuple ++
      [{ edep := p.action.edep
         CEETot := accumulatePlus s1.1 0
         CHETot := accumulatePlus s2.1 0
         AHCALTot := accumulatePlus s3.1 0
         HGCALTot := accumulatePlus s1.1 0 + accumulatePlus s2.1 0 + accumulatePlus s3.1 0
         fIntLayer := p.action.fIntLayer }] }

/-- Sum of the raw values of all the cells that one loop over `n` layers reduces. -/
def usedTotal (used : Nat → Option (List ℚ)) (n : Nat) : ℚ :=
  ((List.range n).map (fun i => ((used i).getD []).sum)).sum

/-- The three per-layer vectors of the event action have the fixed layer counts. -/
def SignalsSized (c : HGCALTBConstants) (a : HGCALTBEventAction) : Prop :=
  a.fCEELayerSignals.length = c.CEELayers ∧
  a.fCHELayerSignals.length = c.CHELayers ∧
  a.fAHCALLayerSignals.length = c.AHCALLayers

instance (c : HGCALTBConstants) (a : HGCALTBEventAction) : Decidable (SignalsSized c a) := by
  unfold SignalsSized
  infer_instance

/-- A CHE collection with one hit per CHE layer, in which every layer at or beyond
`CHESevenWaferLayers` has at least `CEECells - 1` cells (and `CEECells` is at least 1). -/
def CHEWellSized (c : HGCALTBConstants) (CHEHC : HitsCollection) : Prop :=
  CHEHC.length = c.CHELayers ∧
  ∀ i, i < CHEHC.length → c.CHESevenWaferLayers ≤ i →
    1 ≤ c.CEECells ∧ c.CEECells - 1 ≤ (CHEHC.getD i []).length

instance (c : HGCALTBConstants) (CHEHC : HitsCollection) : Decidable (CHEWellSized c CHEHC) := by
  unfold CHEWellSized
  infer_instance

/-- The calibrated and noise added values `cell / divisor + n` of the cells that a loop
reduces for layer `i`, when the loop is entered with generator state `g`. -/
def layerValues (divisor sigma : ℚ) (used : Nat → Option (List ℚ)) (g : RandGauss)
    (i : Nat) : List ℚ :=
  calibrated divisor ((used i).getD [])
    (noiseSamples sigma ((used i).getD []).length (g.advance (drawsBefore used i)))

/-- No cell reduced by `EndOfEventAction` passes its threshold, when the method is entered
with generator state `g`: the CEE loop runs from `g`, the CHE loop from the state the CEE
loop leaves, the AHCAL loop from the state the CHE loop leaves. -/
def NoCellPasses (c : HGCALTBConstants) (CEEHC CHEHC AHCALHC : HitsCollection)
    (g : RandGauss) : Prop :=
  (∀ i, i < c.CEELayers →
    ∀ x ∈ layerValues c.MIPSilicon c.CEENoiseSigma (CEEUsed CEEHC) g i,
      x ≤ c.CEEThreshold) ∧
  (∀ i, i < c.CHELayers →
    ∀ x ∈ layerValues c.MIPSilicon c.CEENoiseSigma (CHEUsed c CHEHC)
        (g.advance (drawsBefore (CEEUsed CEEHC) c.CEELayers)) i,
      x ≤ c.CEEThreshold) ∧
  (∀ i, i < c.AHCALLayers →
    ∀ x ∈ layerValues c.MIPTile c.AHCALNoiseSigma (AHCALUsed AHCALHC)
        ((g.advance (drawsBefore (CEEUsed CEEHC) c.CEELayers)).advance
          (drawsBefore (CHEUsed c CHEHC) c.CHELayers)) i,
      x ≤ c.AHCALThreshold)

/-- The event action states reachable from construction by `BeginOfEventAction`, `Addedep`
and `EndOfEventAction` calls that return normally (on any event, generator state and
ntuple). -/
inductive Reachable (c : HGCALTBConstants) : HGCALTBEventAction → Prop
  | construct : Reachable c (HGCALTBEventAction.construct c)
  | reset (a : HGCALTBEventAction) : Reachable c a → Reachable c (BeginOfEventAction a)
  | addedep (a : HGCALTBEventAction) (stepedep : ℚ) :
      Reachable c a → Reachable c (Addedep a stepedep)
  | finalize (a : HGCALTBEventAction) (sd : G4SDManager) (event : G4Event) (g : RandGauss)
      (rows : List NtupleRow) (q : Process) :
      Reachable c a →
      EndOfEventAction c sd event { action := a, gauss := g, ntuple := rows } = Except.ok q →
      Reachable c q.action

/-- The generator `g` with the draw at offset `k` from its current position left out: the
draws before it are unchanged, the later draws move up by one. -/
def RandGauss.skip (g : RandGauss) (k : Nat) : RandGauss :=
  { draws := fun n => if n < g.pos + k then g.draws n else g.draws (n + 1), pos := g.pos }

/-! ## A concrete configuration and event -/

/-- A small configuration: one CEE layer, two CHE layers of which the second is past the
seven wafer layers, one AHCAL layer, four cells per wafer. -/
def demoConstants : HGCALTBConstants :=
  { CEELayers := 1
    CHELayers := 2
    AHCALLayers := 1
    CHESevenWaferLayers := 1
    CEECells := 4
    MIPSilicon := 2
    CEENoiseSigma := 1
    CEEThreshold := 1 / 2
    MIPTile := 3
    AHCALNoiseSigma := 1 / 2
    AHCALThreshold := 1 / 2 }

/-- A generator whose draws alternate between 1 and -1. -/
def demoGauss : RandGauss :=
  { draws := fun k => if k % 2 = 0 then 1 else -1, pos := 0 }

/-- Collection identifiers 0, 1 and 2. -/
def demoSD : G4SDManager :=
  { CEEHCID := 0, CHEHCID := 1, AHCALHCID := 2 }

/-- An event with the three collections; the second CHE layer has ten cells. -/
def demoEvent : G4Event :=
  { GetHC := fun id =>
      if id = 0 then some [[2, 4]]
      else if id = 1 then some [[1, 2], [1, 2, 3, 4, 5, 6, 7, 8, 9, 10]]
      else if id = 2 then some [[3]]
      else none }

/-- A freshly constructed event action, the generator at its start, an empty ntuple. -/
def demoProcess : Process :=
  { action := HGCALTBEventAction.construct demoConstants, gauss := demoGauss, ntuple := [] }

/-- The process after `EndOfEventAction` on `demoEvent` from `demoProcess`. -/
def demoFinal : Process :=
  { action :=
      { edep := 0
        fIntLayer := 0
        fCEELayerSignals := [3]
        fCHELayerSignals := [3 / 2, 4]
        fAHCALLayerSignals := [0] }
    gauss := { draws := fun k => if k % 2 = 0 then 1 else -1, pos := 8 }
    ntuple :=
      [{ edep := 0, CEETot := 3, CHETot := 11 / 2, AHCALTot := 0, HGCALTot := 17 / 2,
         fIntLayer := 0 }] }

/-- The layer counts of `demoConstants` with divisor 1, noise sigma 0 and threshold 0 for
all three subdetectors. -/
def unitConstants : HGCALTBConstants :=
  { CEELayers := 1
    CHELayers := 2
    AHCALLayers := 1
    CHESevenWaferLayers := 1
    CEECells := 4
    MIPSilicon := 1
    CEENoiseSigma := 0
    CEEThreshold := 0
    MIPTile := 1
    AHCALNoiseSigma := 0
    AHCALThreshold := 0 }

/-- The process after `EndOfEventAction` on `demoEvent` from `demoProcess` under
`unitConstants`. -/
def unitFinal : Process :=
  { action :=
      { edep := 0
        fIntLayer := 0
        fCEELayerSignals := [6]
        fCHELayerSignals := [3, 6]
        fAHCALLayerSignals := [3] }
    gauss := { draws := fun k => if k % 2 = 0 then 1 else -1, pos := 8 }
    ntuple :=
      [{ edep := 0, CEETot := 6, CHETot := 9, AHCALTot := 3, HGCALTot := 18,
         fIntLayer := 0 }] }

/-- The event `demoEvent` with a second CHE layer of two cells only, fewer than the
`CEECells - 1 = 3` cells of the single wafer range. -/
def shortEvent : G4Event :=
  { GetHC := fun id =>
      if id = 0 then some [[2, 4]]
      else if id = 1 then some [[1, 2], [1, 2]]
      else if id = 2 then some [[3]]
      else none }

/-- An event whose CEE collection resolves but holds no hit, and whose CHE collection is
missing. -/
def emptyCEEEvent : G4Event :=
  { GetHC := fun id =>
      if id = 0 then some []
      else if id = 2 then some [[3]]
      else none }

/-- The event `demoEvent` without its CHE collection. -/
def missingCHEEvent : G4Event :=
  { GetHC := fun id =>
      if id = 0 then some [[2, 4]]
      else if id = 2 then some [[3]]
      else none }

/-- A generator whose draws are all 0. -/
def zeroGauss : RandGauss :=
  { draws := fun _ => 0, pos := 0 }

/-- An event in which no reduced cell passes its threshold under `demoConstants` and
`zeroGauss`. -/
def quietEvent : G4Event :=
  { GetHC := fun id =>
      if id = 0 then some [[1, 0]]
      else if id = 1 then some [[1], [0, 1, 0, 7]]
      else if id = 2 then some [[1]]
      else none }

/-- The process after `EndOfEventAction` on `quietEvent`, from the event action of
`demoFinal` and `zeroGauss`. -/
def quietFinal : Process :=
  { action :=
      { edep := 0
        fIntLayer := 0
        fCEELayerSignals := [0]
        fCHELayerSignals := [0, 0]
        fAHCALLayerSignals := [0] }
    gauss := { draws := fun _ => 0, pos := 7 }
    ntuple :=
      [{ edep := 0, CEETot := 0, CHETot := 0, AHCALTot := 0, HGCALTot := 0,
         fIntLayer := 0 }] }

/-- The process at the end of an event body: `BeginOfEventAction` on a fresh event action,
then `Addedep` with 1 and with 2. -/
def depositProcess : Process :=
  { action :=
      [(1 : ℚ), 2].foldl Addedep
        (BeginOfEventAction (HGCALTBEventAction.construct demoConstants))
    gauss := demoGauss
    ntuple := [] }

/-- The process after `EndOfEventAction` on `demoEvent` from `depositProcess`. -/
def depositFinal : Process :=
  { action :=
      { edep := 3
        fIntLayer := 0
        fCEELayerSignals := [3]
        fCHELayerSignals := [3 / 2, 4]
        fAHCALLayerSignals := [0] }
    gauss := { draws := fun k => if k % 2 = 0 then 1 else -1, pos := 8 }
    ntuple :=
      [{ edep := 3, CEETot := 3, CHETot := 11 / 2, AHCALTot := 0, HGCALTot := 17 / 2,
         fIntLayer := 0 }] }

/-- A generator whose draws are all -1. -/
def minusGauss : RandGauss :=
  { draws := fun _ => -1, pos := 0 }

/-! ## Lemmas on the reducer -/

theorem ApplyHGCALCut_eq (c : HGCALTBConstants) :
    ApplyHGCALCut c = cutStep c.MIPSilicon c.CEENoiseSigma c.CEEThreshold := by
  funext p s g
  simp only [ApplyHGCALCut, cutStep]

theorem ApplyAHCut_eq (c : HGCALTBConstants) :
    ApplyAHCut c = cutStep c.MIPTile c.AHCALNoiseSigma c.AHCALThreshold := by
  funext p s g
  simp only [ApplyAHCut, cutStep]

theorem accumulate_cutStep_fst (d s t : ℚ) (cells : List ℚ) :
    ∀ (init : ℚ) (g : RandGauss),
      (accumulate (cutStep d s t) cells init g).1
        = init + sumAbove t (calibrated d cells (noiseSamples s cells.length g)) := by
  induction cells with
  | nil => intro init g; simp [accumulate, sumAbove, calibrated, noiseSamples]
  | cons x xs ih =>
    intro init g
    simp only [accumulate, List.length_cons, noiseSamples, calibrated, List.zipWith_cons_cons]
    rw [ih]
    simp only [cutStep, sumAbove, calibrated]
    by_cases h : x / d + (G4RandGauss.shoot 0 s g).1 > t
    · simp [h, List.filter_cons, add_assoc]
    · simp [h, List.filter_cons]

theorem accumulate_cutStep_snd (d s t : ℚ) (cells : List ℚ) :
    ∀ (init : ℚ) (g : RandGauss),
      (accumulate (cutStep d s t) cells init g).2
        = { draws := g.draws, pos := g.pos + cells.length } := by
  induction cells with
  | nil => intro init g; simp [accumulate]
  | cons x xs ih =>
    intro init g
    simp only [accumulate, List.length_cons]
    rw [ih]
    simp only [cutStep, G4RandGauss.shoot]
    split <;> simp <;> omega

/-! ## Lemmas on the loops over layers -/

theorem CEELayerBody_eq (c : HGCALTBConstants) (CEEHC : HitsCollection) :
    CEELayerBody c CEEHC
      = layerBody (cutStep c.MIPSilicon c.CEENoiseSigma c.CEEThreshold) (CEEUsed CEEHC) := by
  funext i s
  simp only [CEELayerBody, layerBody, CEEUsed, ApplyHGCALCut_eq]

theorem AHCALLayerBody_eq (c : HGCALTBConstants) (AHCALHC : HitsCollection) :
    AHCALLayerBody c AHCALHC
      = layerBody (cutStep c.MIPTile c.AHCALNoiseSigma c.AHCALThreshold)
          (AHCALUsed AHCALHC) := by
  funext i s
  simp only [AHCALLayerBody, layerBody, AHCALUsed, ApplyAHCut_eq]

theorem CHELayerBody_eq (c : HGCALTBConstants) (CHEHC : HitsCollection) :
    CHELayerBody c CHEHC
      = layerBody (cutStep c.MIPSilicon c.CEENoiseSigma c.CEEThreshold)
          (CHEUsed c CHEHC) := by
  funext i s
  simp only [CHELayerBody, layerBody, CHEUsed, ApplyHGCALCut_eq]
  cases h : CHEHC[i]? with
  | none => rfl
  | some cells =>
    by_cases h1 : i < c.CHESevenWaferLayers
    · simp only [h1, if_true]
    · by_cases h2 : 1 ≤ c.CEECells ∧ c.CEECells - 1 ≤ cells.length
      · simp only [h1, h2, if_true, if_false, and_self]
      · simp only [h1, h2, if_false]

theorem layerBody_error (op : ℚ → ℚ → RandGauss → ℚ × RandGauss)
    (used : Nat → Option (List ℚ)) (i : Nat) (s : List ℚ × RandGauss) (e : Failure)
    (h : layerBody op used i s = Except.error e) : e = Failure.undefined := by
  unfold layerBody assignAt at h
  split at h
  · cases h; rfl
  · split at h
    · rename_i heq
      split at heq
      · cases heq
      · cases heq; cases h; rfl
    · cases h

theorem forLoop_layerBody_error (op : ℚ → ℚ → RandGauss → ℚ × RandGauss)
    (used : Nat → Option (List ℚ)) (n : Nat) (s : List ℚ × RandGauss) (e : Failure)
    (h : forLoop (layerBody op used) n s = Except.error e) : e = Failure.undefined := by
  induction n with
  | zero => simp [forLoop] at h
  | succ n ih =>
    simp only [forLoop] at h
    split at h
    · rename_i e1 heq
      cases h
      exact ih heq
    · exact layerBody_error op used n _ e h

theorem layerBody_ok_iff (op : ℚ → ℚ → RandGauss → ℚ × RandGauss)
    (used : Nat → Option (List ℚ)) (i : Nat) (s t : List ℚ × RandGauss) :
    layerBody op used i s = Except.ok t ↔
      ∃ cells, used i = some cells ∧ i < s.1.length ∧
        t = (s.1.set i (accumulate op cells 0 s.2).1, (accumulate op cells 0 s.2).2) := by
  unfold layerBody assignAt
  cases h : used i with
  | none => simp
  | some cells =>
    by_cases hi : i < s.1.length
    · simp [hi, eq_comm]
    · simp [hi]

theorem forLoop_layerBody_ok (d sg th : ℚ) (used : Nat → Option (List ℚ)) (v : List ℚ)
    (g : RandGauss) (n : Nat) :
    ∀ (t : List ℚ × RandGauss),
      forLoop (layerBody (cutStep d sg th) used) n (v, g) = Except.ok t →
      t.1.length = v.length ∧
      (∀ i, i < n → i < v.length ∧ ∃ cells, used i = some cells ∧
        t.1[i]? = some (accumulate (cutStep d sg th) cells 0
          (g.advance (drawsBefore used i))).1) ∧
      (∀ i, n ≤ i → t.1[i]? = v[i]?) ∧
      t.2 = g.advance (drawsBefore used n) := by
  induction n with
  | zero =>
    intro t h
    simp only [forLoop, Except.ok.injEq] at h
    subst h
    simp [drawsBefore, RandGauss.advance]
  | succ n ih =>
    intro t h
    simp only [forLoop] at h
    split at h
    · cases h
    · rename_i s1 heq
      obtain ⟨hlen, hval, hrest, hg⟩ := ih s1 heq
      rw [layerBody_ok_iff] at h
      obtain ⟨cells, hu, hi, ht⟩ := h
      subst ht
      refine ⟨by simp [hlen], ?_, ?_, ?_⟩
      · intro i hin
        by_cases hlast : i = n
        · subst hlast
          refine ⟨by omega, cells, hu, ?_⟩
          simp [hi, hg]
        · have hlt : i < n := by omega
          obtain ⟨h1, cs, h2, h3⟩ := hval i hlt
          refine ⟨h1, cs, h2, ?_⟩
          simp only
          rw [List.getElem?_set_ne (by omega)]
          exact h3
      · intro i hin
        simp only
        rw [List.getElem?_set_ne (by omega)]
        exact hrest i (by omega)
      · simp only [hg, accumulate_cutStep_snd, drawsBefore, hu, Option.getD_some,
          RandGauss.advance]
        simp [Nat.add_assoc]

theorem forLoop_layerBody_succeeds (op : ℚ → ℚ → RandGauss → ℚ × RandGauss)
    (used : Nat → Option (List ℚ)) (v : List ℚ) (g : RandGauss) (n : Nat)
    (h : ∀ i, i < n → i < v.length ∧ (used i).isSome = true) :
    ∃ t, forLoop (layerBody op used) n (v, g) = Except.ok t ∧ t.1.length = v.length := by
  induction n with
  | zero => exact ⟨(v, g), rfl, rfl⟩
  | succ n ih =>
    obtain ⟨s1, hs1, hl1⟩ := ih (fun i hi => h i (by omega))
    obtain ⟨hn, hsome⟩ := h n (by omega)
    obtain ⟨cells, hc⟩ := Option.isSome_iff_exists.mp hsome
    refine ⟨(s1.1.set n (accumulate op cells 0 s1.2).1, (accumulate op cells 0 s1.2).2),
      ?_, by simp [hl1]⟩
    simp only [forLoop, hs1]
    rw [layerBody_ok_iff]
    exact ⟨cells, hc, by omega, rfl⟩

/-! ## Lemmas on the end of event -/

theorem EndOfEventAction_ok_iff (c : HGCALTBConstants) (sd : G4SDManager) (event : G4Event)
    (p q : Process) :
    EndOfEventAction c sd event p = Except.ok q ↔
      ∃ CEEHC CHEHC AHCALHC s1 s2 s3,
        event.GetHC sd.CEEHCID = some CEEHC ∧
        event.GetHC sd.CHEHCID = some CHEHC ∧
        event.GetHC sd.AHCALHCID = some AHCALHC ∧
        forLoop (layerBody (cutStep c.MIPSilicon c.CEENoiseSigma c.CEEThreshold)
          (CEEUsed CEEHC)) c.CEELayers (p.action.fCEELayerSignals, p.gauss) = Except.ok s1 ∧
        forLoop (layerBody (cutStep c.MIPSilicon c.CEENoiseSigma c.CEEThreshold)
          (CHEUsed c CHEHC)) c.CHELayers (p.action.fCHELayerSignals, s1.2) = Except.ok s2 ∧
        forLoop (layerBody (cutStep c.MIPTile c.AHCALNoiseSigma c.AHCALThreshold)
          (AHCALUsed AHCALHC)) c.AHCALLayers (p.action.fAHCALLayerSignals, s2.2)
            = Except.ok s3 ∧
        q = finalProcess p s1 s2 s3 := by
  unfold EndOfEventAction GetCEEHitsCollection GetCHEHitsCollection GetAHCALHitsCollection
  simp only [CEELayerBody_eq, CHELayerBody_eq, AHCALLayerBody_eq]
  constructor
  · intro h
    cases h1 : event.GetHC sd.CEEHCID with
    | none => rw [h1] at h; cases h
    | some CEEHC =>
      rw [h1] at h
      simp only at h
      cases l1 : forLoop (layerBody (cutStep c.MIPSilicon c.CEENoiseSigma c.CEEThreshold)
          (CEEUsed CEEHC)) c.CEELayers (p.action.fCEELayerSignals, p.gauss) with
      | error e => rw [l1] at h; cases h
      | ok s1 =>
        rw [l1] at h
        simp only at h
        cases h2 : event.GetHC sd.CHEHCID with
        | none => rw [h2] at h; cases h
        | some CHEHC =>
          rw [h2] at h
          simp only at h
          cases l2 : forLoop (layerBody (cutStep c.MIPSilicon c.CEENoiseSigma c.CEEThreshold)
              (CHEUsed c CHEHC)) c.CHELayers (p.action.fCHELayerSignals, s1.2) with
          | error e => rw [l2] at h; cases h
          | ok s2 =>
            rw [l2] at h
            simp only at h
            cases h3 : event.GetHC sd.AHCALHCID with
            | none => rw [h3] at h; cases h
            | some AHCALHC =>
              rw [h3] at h
              simp only at h
              cases l3 : forLoop (layerBody (cutStep c.MIPTile c.AHCALNoiseSigma
                  c.AHCALThreshold) (AHCALUsed AHCALHC)) c.AHCALLayers
                  (p.action.fAHCALLayerSignals, s2.2) with
              | error e => rw [l3] at h; cases h
              | ok s3 =>
                rw [l3] at h
                simp only [Except.ok.injEq] at h
                exact ⟨CEEHC, CHEHC, AHCALHC, s1, s2, s3, rfl, rfl, rfl, l1, l2, l3, h.symm⟩
  · rintro ⟨CEEHC, CHEHC, AHCALHC, s1, s2, s3, h1, h2, h3, l1, l2, l3, rfl⟩
    rw [h1]
    simp only
    rw [l1]
    simp only
    rw [h2]
    simp only
    rw [l2]
    simp only
    rw [h3]
    simp only
    rw [l3]
    rfl

theorem accumulatePlus_eq (xs : List ℚ) : ∀ init : ℚ, accumulatePlus xs init = init + xs.sum := by
  induction xs with
  | nil => intro init; simp [accumulatePlus]
  | cons x xs ih => intro init; simp [accumulatePlus, ih, add_assoc]

theorem demo_EndOfEventAction :
    EndOfEventAction demoConstants demoSD demoEvent demoProcess = Except.ok demoFinal := by
  norm_num [EndOfEventAction, demoConstants, demoSD, demoEvent, demoProcess, demoFinal,
    demoGauss, GetCEEHitsCollection, GetCHEHitsCollection, GetAHCALHitsCollection, forLoop,
    CEELayerBody, CHELayerBody, AHCALLayerBody, accumulate, ApplyHGCALCut, ApplyAHCut,
    G4RandGauss.shoot, assignAt, HGCALTBEventAction.construct, accumulatePlus,
    List.replicate, List.set]

theorem advance_advance (g : RandGauss) (a b : Nat) :
    (g.advance a).advance b = g.advance (a + b) := by
  simp [RandGauss.advance, Nat.add_assoc]

theorem drawsBefore_congr (u1 u2 : Nat → Option (List ℚ)) (n : Nat)
    (h : ∀ j, j < n → u1 j = u2 j) : drawsBefore u1 n = drawsBefore u2 n := by
  induction n with
  | zero => rfl
  | succ n ih =>
    simp only [drawsBefore]
    rw [ih (fun j hj => h j (by omega)), h n (by omega)]

/-- Signal stored by a successful `EndOfEventAction` for a CHE layer past the seven wafer
layers: the reduction of the first `CEECells - 1` cells, from the generator state reached
after the CEE layers and the CHE layers before it. -/
theorem CHE_single_wafer_value (c : HGCALTBConstants) (sd : G4SDManager) (event : G4Event)
    (p q : Process) (CEEHC CHEHC : HitsCollection)
    (hq : EndOfEventAction c sd event p = Except.ok q)
    (hCEE : event.GetHC sd.CEEHCID = some CEEHC)
    (hCHE : event.GetHC sd.CHEHCID = some CHEHC)
    (i : Nat) (hi : i < c.CHELayers) (hb : c.CHESevenWaferLayers ≤ i)
    (cells : List ℚ) (hcells : CHEHC[i]? = some cells) :
    q.action.fCHELayerSignals[i]?
      = some (accumulate (ApplyHGCALCut c) (cells.take (c.CEECells - 1)) 0
          (p.gauss.advance
            (drawsBefore (CEEUsed CEEHC) c.CEELayers + drawsBefore (CHEUsed c CHEHC) i))).1 := by
  rw [EndOfEventAction_ok_iff] at hq
  obtain ⟨a, b, d, s1, s2, s3, h1, h2, _, l1, l2, _, rfl⟩ := hq
  rw [hCEE] at h1
  rw [hCHE] at h2
  cases h1
  cases h2
  obtain ⟨_, _, _, hg1⟩ := forLoop_layerBody_ok _ _ _ _ _ _ _ _ l1
  obtain ⟨_, hval, _, _⟩ := forLoop_layerBody_ok _ _ _ _ _ _ _ _ l2
  obtain ⟨_, cs, hcs, hv⟩ := hval i hi
  have hnb : ¬ i < c.CHESevenWaferLayers := by omega
  simp only [CHEUsed, hcells, hnb, if_false] at hcs
  split at hcs
  · cases hcs
    simp only [finalProcess, hv, hg1, advance_advance, ApplyHGCALCut_eq]
  · cases hcs

theorem unit_EndOfEventAction :
    EndOfEventAction unitConstants demoSD demoEvent demoProcess = Except.ok unitFinal := by
  norm_num [EndOfEventAction, unitConstants, demoConstants, demoSD, demoEvent, demoProcess,
    unitFinal, demoGauss, GetCEEHitsCollection, GetCHEHitsCollection, GetAHCALHitsCollection,
    forLoop, CEELayerBody, CHELayerBody, AHCALLayerBody, accumulate, ApplyHGCALCut,
    ApplyAHCut, G4RandGauss.shoot, assignAt, HGCALTBEventAction.construct, accumulatePlus,
    List.replicate, List.set]

/-- The values stored by a successful loop over `n` layers, when the vector has exactly `n`
entries. -/
theorem forLoop_layerBody_values (d sg th : ℚ) (used : Nat → Option (List ℚ)) (v : List ℚ)
    (g : RandGauss) (n : Nat) (t : List ℚ × RandGauss)
    (h : forLoop (layerBody (cutStep d sg th) used) n (v, g) = Except.ok t)
    (hn : v.length = n) :
    t.1 = (List.range n).map (fun i =>
      (accumulate (cutStep d sg th) ((used i).getD []) 0
        (g.advance (drawsBefore used i))).1) := by
  obtain ⟨hlen, hval, _, _⟩ := forLoop_layerBody_ok d sg th used v g n t h
  apply List.ext_getElem?
  intro i
  by_cases hi : i < n
  · obtain ⟨_, cells, hu, hv⟩ := hval i hi
    rw [hv]
    simp [List.getElem?_range hi, hu]
  · rw [List.getElem?_eq_none (by omega), List.getElem?_eq_none (by simp; omega)]

theorem accumulate_cutStep_noiseless (d th : ℚ) (cells : List ℚ) :
    ∀ (init : ℚ) (g : RandGauss),
      (accumulate (cutStep d 0 th) cells init g).1
        = init + sumAbove th (cells.map (fun x => x / d)) := by
  induction cells with
  | nil => intro init g; simp [accumulate, sumAbove]
  | cons x xs ih =>
    intro init g
    simp only [accumulate, List.map_cons]
    rw [ih]
    simp only [cutStep, sumAbove, G4RandGauss.shoot, mul_zero, add_zero]
    by_cases h : x / d > th
    · simp [h, List.filter_cons, add_assoc]
    · simp [h, List.filter_cons]

theorem sumAbove_zero_of_nonneg (xs : List ℚ) (h : ∀ x ∈ xs, 0 ≤ x) :
    sumAbove 0 xs = xs.sum := by
  induction xs with
  | nil => simp [sumAbove]
  | cons x xs ih =>
    have hx : 0 ≤ x := h x (by simp)
    have ih1 := ih (fun y hy => h y (by simp [hy]))
    simp only [sumAbove] at ih1 ⊢
    by_cases hpos : x > 0
    · simp [List.filter_cons, hpos, ih1]
    · have h0 : x = 0 := le_antisymm (not_lt.mp hpos) hx
      simp [List.filter_cons, h0, ih1]

/-- With divisor 1, noise sigma 0 and threshold 0 the reducer sums a list of non-negative
cells exactly. -/
theorem accumulate_unit (cells : List ℚ) (h : ∀ x ∈ cells, 0 ≤ x) (g : RandGauss) :
    (accumulate (cutStep 1 0 0) cells 0 g).1 = cells.sum := by
  rw [accumulate_cutStep_noiseless]
  simp only [div_one, List.map_id_fun, id_eq, zero_add]
  have : cells.map (fun x => x) = cells := by simp
  rw [this]
  exact sumAbove_zero_of_nonneg cells h

theorem CEEUsed_nonneg (CEEHC : HitsCollection)
    (h : ∀ cells ∈ CEEHC, ∀ x ∈ cells, 0 ≤ x) (i : Nat) (cells : List ℚ)
    (hu : CEEUsed CEEHC i = some cells) : ∀ x ∈ cells, 0 ≤ x :=
  h cells (List.getElem?_mem hu)

theorem AHCALUsed_nonneg (AHCALHC : HitsCollection)
    (h : ∀ cells ∈ AHCALHC, ∀ x ∈ cells, 0 ≤ x) (i : Nat) (cells : List ℚ)
    (hu : AHCALUsed AHCALHC i = some cells) : ∀ x ∈ cells, 0 ≤ x :=
  h cells (List.getElem?_mem hu)

theorem CHEUsed_cases (c : HGCALTBConstants) (CHEHC : HitsCollection) (i : Nat)
    (used : List ℚ) (hu : CHEUsed c CHEHC i = some used) :
    ∃ cells, CHEHC[i]? = some cells ∧
      ((i < c.CHESevenWaferLayers ∧ used = cells) ∨
        (c.CHESevenWaferLayers ≤ i ∧ 1 ≤ c.CEECells ∧ c.CEECells - 1 ≤ cells.length ∧
          used = cells.take (c.CEECells - 1))) := by
  unfold CHEUsed at hu
  cases hc : CHEHC[i]? with
  | none => rw [hc] at hu; cases hu
  | some cells =>
    rw [hc] at hu
    simp only at hu
    refine ⟨cells, rfl, ?_⟩
    by_cases h1 : i < c.CHESevenWaferLayers
    · simp only [h1, if_true, Option.some.injEq] at hu
      exact Or.inl ⟨h1, hu.symm⟩
    · simp only [h1, if_false] at hu
      split at hu
      · rename_i h2
        simp only [Option.some.injEq] at hu
        exact Or.inr ⟨by omega, h2.1, h2.2, hu.symm⟩
      · cases hu

theorem CHEUsed_nonneg (c : HGCALTBConstants) (CHEHC : HitsCollection)
    (h : ∀ cells ∈ CHEHC, ∀ x ∈ cells, 0 ≤ x) (i : Nat) (used : List ℚ)
    (hu : CHEUsed c CHEHC i = some used) : ∀ x ∈ used, 0 ≤ x := by
  obtain ⟨cells, hc, hcase⟩ := CHEUsed_cases c CHEHC i used hu
  intro x hx
  rcases hcase with ⟨_, rfl⟩ | ⟨_, _, _, rfl⟩
  · exact h _ (List.getElem?_mem hc) x hx
  · exact h _ (List.getElem?_mem hc) x (List.mem_of_mem_take hx)

/-- A successful loop under the unit policy (divisor 1, sigma 0, threshold 0) over
non-negative cells stores the exact sum of each reduced list, and the stored values add up to
the sum of all reduced cells. -/
theorem unit_loop (used : Nat → Option (List ℚ)) (v : List ℚ) (g : RandGauss) (n : Nat)
    (t : List ℚ × RandGauss)
    (h : forLoop (layerBody (cutStep 1 0 0) used) n (v, g) = Except.ok t)
    (hn : v.length = n)
    (hnn : ∀ i cells, used i = some cells → ∀ x ∈ cells, 0 ≤ x) :
    (∀ i, i < n → ∃ cells, used i = some cells ∧ t.1[i]? = some cells.sum) ∧
      accumulatePlus t.1 0 = usedTotal used n := by
  constructor
  · intro i hi
    obtain ⟨_, hval, _, _⟩ := forLoop_layerBody_ok 1 0 0 used v g n t h
    obtain ⟨_, cells, hu, hv⟩ := hval i hi
    refine ⟨cells, hu, ?_⟩
    rw [hv, accumulate_unit cells (hnn i cells hu)]
  · rw [forLoop_layerBody_values 1 0 0 used v g n t h hn, accumulatePlus_eq, zero_add,
      usedTotal]
    congr 1
    apply List.map_congr_left
    intro i _
    apply accumulate_unit
    cases hu : used i with
    | none => simp
    | some cells => simpa using hnn i cells hu

theorem CEEUsed_isSome (CEEHC : HitsCollection) (i : Nat) (h : i < CEEHC.length) :
    (CEEUsed CEEHC i).isSome = true := by
  simp [CEEUsed, h]

theorem AHCALUsed_isSome (AHCALHC : HitsCollection) (i : Nat) (h : i < AHCALHC.length) :
    (AHCALUsed AHCALHC i).isSome = true := by
  simp [AHCALUsed, h]

theorem CHEUsed_isSome (c : HGCALTBConstants) (CHEHC : HitsCollection)
    (hw : CHEWellSized c CHEHC) (i : Nat) (h : i < c.CHELayers) :
    (CHEUsed c CHEHC i).isSome = true := by
  obtain ⟨hlen, hcells⟩ := hw
  have hi : i < CHEHC.length := by omega
  unfold CHEUsed
  rw [List.getElem?_eq_getElem hi]
  simp only
  by_cases h1 : i < c.CHESevenWaferLayers
  · simp [h1]
  · have h2 := hcells i hi (by omega)
    rw [List.getD_eq_getElem _ _ hi] at h2
    simp only [h1, if_false, h2, and_self, if_true, Option.isSome_some]

/-- The lookups and loops of `EndOfEventAction` in order: a failure of a loop is
`Failure.undefined`, a failed lookup is `Failure.fatal`. -/
theorem EndOfEventAction_error (c : HGCALTBConstants) (sd : G4SDManager) (event : G4Event)
    (p : Process) (e : Failure) (h : EndOfEventAction c sd event p = Except.error e) :
    e = Failure.undefined ∨
      (e = Failure.fatal sd.CEEHCID ∧ event.GetHC sd.CEEHCID = none) ∨
      (e = Failure.fatal sd.CHEHCID ∧ event.GetHC sd.CHEHCID = none) ∨
      (e = Failure.fatal sd.AHCALHCID ∧ event.GetHC sd.AHCALHCID = none) := by
  unfold EndOfEventAction GetCEEHitsCollection GetCHEHitsCollection GetAHCALHitsCollection at h
  simp only [CEELayerBody_eq, CHELayerBody_eq, AHCALLayerBody_eq] at h
  cases h1 : event.GetHC sd.CEEHCID with
  | none => rw [h1] at h; cases h; exact Or.inr (Or.inl ⟨rfl, rfl⟩)
  | some CEEHC =>
    rw [h1] at h
    simp only at h
    cases l1 : forLoop (layerBody (cutStep c.MIPSilicon c.CEENoiseSigma c.CEEThreshold)
        (CEEUsed CEEHC)) c.CEELayers (p.action.fCEELayerSignals, p.gauss) with
    | error e1 =>
      rw [l1] at h
      cases h
      exact Or.inl (forLoop_layerBody_error _ _ _ _ _ l1)
    | ok s1 =>
      rw [l1] at h
      simp only at h
      cases h2 : event.GetHC sd.CHEHCID with
      | none => rw [h2] at h; cases h; exact Or.inr (Or.inr (Or.inl ⟨rfl, rfl⟩))
      | some CHEHC =>
        rw [h2] at h
        simp only at h
        cases l2 : forLoop (layerBody (cutStep c.MIPSilicon c.CEENoiseSigma c.CEEThreshold)
            (CHEUsed c CHEHC)) c.CHELayers (p.action.fCHELayerSignals, s1.2) with
        | error e2 =>
          rw [l2] at h
          cases h
          exact Or.inl (forLoop_layerBody_error _ _ _ _ _ l2)
        | ok s2 =>
          rw [l2] at h
          simp only at h
          cases h3 : event.GetHC sd.AHCALHCID with
          | none => rw [h3] at h; cases h; exact Or.inr (Or.inr (Or.inr ⟨rfl, rfl⟩))
          | some AHCALHC =>
            rw [h3] at h
            simp only at h
            cases l3 : forLoop (layerBody (cutStep c.MIPTile c.AHCALNoiseSigma
                c.AHCALThreshold) (AHCALUsed AHCALHC)) c.AHCALLayers
                (p.action.fAHCALLayerSignals, s2.2) with
            | error e3 =>
              rw [l3] at h
              cases h
              exact Or.inl (forLoop_layerBody_error _ _ _ _ _ l3)
            | ok s3 => rw [l3] at h; cases h

theorem short_EndOfEventAction :
    EndOfEventAction demoConstants demoSD shortEvent demoProcess
      = Except.error Failure.undefined := by
  norm_num [EndOfEventAction, demoConstants, demoSD, shortEvent, demoProcess,
    demoGauss, GetCEEHitsCollection, GetCHEHitsCollection, GetAHCALHitsCollection, forLoop,
    CEELayerBody, CHELayerBody, AHCALLayerBody, accumulate, ApplyHGCALCut, ApplyAHCut,
    G4RandGauss.shoot, assignAt, HGCALTBEventAction.construct, accumulatePlus,
    List.replicate, List.set]

/-- The loop over the CEE layers succeeds on a collection with one hit per layer. -/
theorem CEE_loop_succeeds (c : HGCALTBConstants) (CEEHC : HitsCollection) (v : List ℚ)
    (g : RandGauss) (hv : v.length = c.CEELayers) (hw : CEEHC.length = c.CEELayers) :
    ∃ t, forLoop (layerBody (cutStep c.MIPSilicon c.CEENoiseSigma c.CEEThreshold)
      (CEEUsed CEEHC)) c.CEELayers (v, g) = Except.ok t ∧ t.1.length = v.length :=
  forLoop_layerBody_succeeds _ _ _ _ _
    (fun i hi => ⟨by omega, CEEUsed_isSome CEEHC i (by omega)⟩)

/-- The loop over the CHE layers succeeds on a well sized collection. -/
theorem CHE_loop_succeeds (c : HGCALTBConstants) (CHEHC : HitsCollection) (v : List ℚ)
    (g : RandGauss) (hv : v.length = c.CHELayers) (hw : CHEWellSized c CHEHC) :
    ∃ t, forLoop (layerBody (cutStep c.MIPSilicon c.CEENoiseSigma c.CEEThreshold)
      (CHEUsed c CHEHC)) c.CHELayers (v, g) = Except.ok t ∧ t.1.length = v.length :=
  forLoop_layerBody_succeeds _ _ _ _ _
    (fun i hi => ⟨by omega, CHEUsed_isSome c CHEHC hw i hi⟩)

/-- The loop over the AHCAL layers succeeds on a collection with one hit per layer. -/
theorem AHCAL_loop_succeeds (c : HGCALTBConstants) (AHCALHC : HitsCollection) (v : List ℚ)
    (g : RandGauss) (hv : v.length = c.AHCALLayers) (hw : AHCALHC.length = c.AHCALLayers) :
    ∃ t, forLoop (layerBody (cutStep c.MIPTile c.AHCALNoiseSigma c.AHCALThreshold)
      (AHCALUsed AHCALHC)) c.AHCALLayers (v, g) = Except.ok t ∧ t.1.length = v.length :=
  forLoop_layerBody_succeeds _ _ _ _ _
    (fun i hi => ⟨by omega, AHCALUsed_isSome AHCALHC i (by omega)⟩)

theorem quiet_EndOfEventAction :
    EndOfEventAction demoConstants demoSD quietEvent
        { action := demoFinal.action, gauss := zeroGauss, ntuple := [] }
      = Except.ok quietFinal := by
  norm_num [EndOfEventAction, demoConstants, demoSD, quietEvent, demoFinal, quietFinal,
    zeroGauss, GetCEEHitsCollection, GetCHEHitsCollection, GetAHCALHitsCollection, forLoop,
    CEELayerBody, CHELayerBody, AHCALLayerBody, accumulate, ApplyHGCALCut, ApplyAHCut,
    G4RandGauss.shoot, assignAt, accumulatePlus, List.set]

theorem sumAbove_eq_zero (th : ℚ) (xs : List ℚ) (h : ∀ x ∈ xs, x ≤ th) :
    sumAbove th xs = 0 := by
  have hnil : xs.filter (fun x => x > th) = [] := by
    rw [List.filter_eq_nil_iff]
    intro x hx
    simpa using h x hx
  simp [sumAbove, hnil]

/-- A successful loop in which no reduced cell passes the threshold stores zeros. -/
theorem quiet_loop (d sg th : ℚ) (used : Nat → Option (List ℚ)) (v : List ℚ)
    (g : RandGauss) (n : Nat) (t : List ℚ × RandGauss)
    (h : forLoop (layerBody (cutStep d sg th) used) n (v, g) = Except.ok t)
    (hn : v.length = n)
    (hq : ∀ i, i < n → ∀ x ∈ layerValues d sg used g i, x ≤ th) :
    t.1 = List.replicate n 0 := by
  rw [forLoop_layerBody_values d sg th used v g n t h hn, List.eq_replicate_iff]
  refine ⟨by simp, ?_⟩
  intro b hb
  rw [List.mem_map] at hb
  obtain ⟨i, hi, rfl⟩ := hb
  rw [accumulate_cutStep_fst, zero_add]
  exact sumAbove_eq_zero _ _ (hq i (List.mem_range.mp hi))

/-- Every reachable event action has per-layer vectors of the fixed layer counts. -/
theorem Reachable_signalsSized (c : HGCALTBConstants) (a : HGCALTBEventAction)
    (h : Reachable c a) : SignalsSized c a := by
  induction h with
  | construct => simp [SignalsSized, HGCALTBEventAction.construct]
  | reset a _ ih => simpa [SignalsSized, BeginOfEventAction] using ih
  | addedep a s _ ih => simpa [SignalsSized, Addedep] using ih
  | finalize a sd event g rows q _ hq ih =>
    rw [EndOfEventAction_ok_iff] at hq
    obtain ⟨_, _, _, s1, s2, s3, _, _, _, l1, l2, l3, rfl⟩ := hq
    obtain ⟨e1, _⟩ := forLoop_layerBody_ok _ _ _ _ _ _ _ _ l1
    obtain ⟨e2, _⟩ := forLoop_layerBody_ok _ _ _ _ _ _ _ _ l2
    obtain ⟨e3, _⟩ := forLoop_layerBody_ok _ _ _ _ _ _ _ _ l3
    obtain ⟨i1, i2, i3⟩ := ih
    exact ⟨by simp only [finalProcess, e1, i1], by simp only [finalProcess, e2, i2],
      by simp only [finalProcess, e3, i3]⟩

/-! ## Further lemmas on the reducer -/

theorem noiseSamples_eq (sg : ℚ) (k : Nat) :
    ∀ g : RandGauss,
      noiseSamples sg k g = (List.range k).map (fun j => g.draws (g.pos + j) * sg + 0) := by
  induction k with
  | zero => intro g; simp [noiseSamples]
  | succ k ih =>
    intro g
    simp only [noiseSamples]
    rw [ih, List.range_succ_eq_map]
    simp only [G4RandGauss.shoot, List.map_cons, List.map_map, Nat.add_zero]
    congr 1
    apply List.map_congr_left
    intro j _
    simp only [Function.comp, Nat.succ_eq_add_one]
    rw [Nat.add_assoc, Nat.add_comm 1 j]

theorem accumulate_append (op : ℚ → ℚ → RandGauss → ℚ × RandGauss) (xs ys : List ℚ) :
    ∀ (init : ℚ) (g : RandGauss),
      accumulate op (xs ++ ys) init g
        = accumulate op ys (accumulate op xs init g).1 (accumulate op xs init g).2 := by
  induction xs with
  | nil => intro init g; rfl
  | cons x xs ih => intro init g; exact ih (op init x g).1 (op init x g).2

/-- The value of the reducer only depends on the draws it consumes. -/
theorem accumulate_cutStep_congr (d sg th : ℚ) (cells : List ℚ) (init : ℚ)
    (g1 g2 : RandGauss)
    (h : ∀ j, j < cells.length → g1.draws (g1.pos + j) = g2.draws (g2.pos + j)) :
    (accumulate (cutStep d sg th) cells init g1).1
      = (accumulate (cutStep d sg th) cells init g2).1 := by
  rw [accumulate_cutStep_fst, accumulate_cutStep_fst, noiseSamples_eq, noiseSamples_eq]
  congr 3
  apply List.map_congr_left
  intro j hj
  rw [h j (List.mem_range.mp hj)]

theorem accumulate_cutStep_snd_advance (d sg th : ℚ) (cells : List ℚ) (init : ℚ)
    (g : RandGauss) :
    (accumulate (cutStep d sg th) cells init g).2 = g.advance cells.length := by
  rw [accumulate_cutStep_snd]
  rfl

theorem deposit_EndOfEventAction :
    EndOfEventAction demoConstants demoSD demoEvent depositProcess
      = Except.ok depositFinal := by
  norm_num [EndOfEventAction, demoConstants, demoSD, demoEvent, depositProcess, depositFinal,
    demoGauss, GetCEEHitsCollection, GetCHEHitsCollection, GetAHCALHitsCollection, forLoop,
    CEELayerBody, CHELayerBody, AHCALLayerBody, accumulate, ApplyHGCALCut, ApplyAHCut,
    G4RandGauss.shoot, assignAt, HGCALTBEventAction.construct, accumulatePlus,
    BeginOfEventAction, Addedep, List.replicate, List.set]

theorem foldl_Addedep (ss : List ℚ) :
    ∀ a : HGCALTBEventAction,
      (ss.foldl Addedep a).edep = a.edep + ss.sum ∧
      (ss.foldl Addedep a).fIntLayer = a.fIntLayer ∧
      (ss.foldl Addedep a).fCEELayerSignals = a.fCEELayerSignals ∧
      (ss.foldl Addedep a).fCHELayerSignals = a.fCHELayerSignals ∧
      (ss.foldl Addedep a).fAHCALLayerSignals = a.fAHCALLayerSignals := by
  induction ss with
  | nil => intro a; simp
  | cons x xs ih =>
    intro a
    obtain ⟨h1, h2, h3, h4, h5⟩ := ih (Addedep a x)
    simp only [List.foldl_cons, List.sum_cons]
    exact ⟨by rw [h1]; simp [Addedep, add_assoc], by rw [h2]; rfl, by rw [h3]; rfl,
      by rw [h4]; rfl, by rw [h5]; rfl⟩

/-- A cell whose calibrated and noise added value does not pass the threshold leaves the fold
as if the cell were removed and its draw skipped. -/
theorem accumulate_cutStep_discard (d sg th : ℚ) (pre post : List ℚ) (x : ℚ)
    (g : RandGauss)
    (hx : ¬ x / d + (G4RandGauss.shoot 0 sg (g.advance pre.length)).1 > th) :
    (accumulate (cutStep d sg th) (pre ++ x :: post) 0 g).1
      = (accumulate (cutStep d sg th) (pre ++ post) 0 (g.skip pre.length)).1 := by
  rw [accumulate_append, accumulate_append, accumulate_cutStep_snd_advance,
    accumulate_cutStep_snd_advance]
  have hpre : (accumulate (cutStep d sg th) pre 0 (g.skip pre.length)).1
      = (accumulate (cutStep d sg th) pre 0 g).1 := by
    apply accumulate_cutStep_congr
    intro j hj
    simp [RandGauss.skip, hj]
  rw [hpre]
  simp only [accumulate]
  have hstep : cutStep d sg th (accumulate (cutStep d sg th) pre 0 g).1 x
      (g.advance pre.length)
      = ((accumulate (cutStep d sg th) pre 0 g).1, (g.advance pre.length).advance 1) := by
    simp only [cutStep, hx, if_false]
    rfl
  rw [hstep]
  apply accumulate_cutStep_congr
  intro j _
  have hnot : ¬ g.pos + pre.length + j < g.pos + pre.length := by omega
  simp only [RandGauss.skip, RandGauss.advance, hnot, if_false]
  congr 1
  omega

/-! ## Sign, overwriting and monotonicity -/

theorem sumAbove_nonneg (th : ℚ) (xs : List ℚ) (h : 0 ≤ th) : 0 ≤ sumAbove th xs := by
  apply List.sum_nonneg
  intro x hx
  rw [List.mem_filter] at hx
  have hgt : x > th := by simpa using hx.2
  exact le_of_lt (lt_of_le_of_lt h hgt)

theorem accumulate_cutStep_nonneg (d sg th : ℚ) (h : 0 ≤ th) (cells : List ℚ)
    (g : RandGauss) : 0 ≤ (accumulate (cutStep d sg th) cells 0 g).1 := by
  rw [accumulate_cutStep_fst, zero_add]
  exact sumAbove_nonneg th _ h

/-- A successful loop under a non-negative threshold, on a vector of exactly `n` entries,
leaves non-negative entries only and a non-negative total. -/
theorem nonneg_loop (d sg th : ℚ) (used : Nat → Option (List ℚ)) (v : List ℚ)
    (g : RandGauss) (n : Nat) (t : List ℚ × RandGauss)
    (h : forLoop (layerBody (cutStep d sg th) used) n (v, g) = Except.ok t)
    (hn : v.length = n) (hth : 0 ≤ th) :
    (∀ x ∈ t.1, 0 ≤ x) ∧ 0 ≤ accumulatePlus t.1 0 := by
  have hall : ∀ x ∈ t.1, 0 ≤ x := by
    rw [forLoop_layerBody_values d sg th used v g n t h hn]
    intro x hx
    rw [List.mem_map] at hx
    obtain ⟨i, _, rfl⟩ := hx
    exact accumulate_cutStep_nonneg d sg th hth _ _
  refine ⟨hall, ?_⟩
  rw [accumulatePlus_eq, zero_add]
  exact List.sum_nonneg hall

/-- A successful loop on a vector of exactly `n` entries ends in the same state from any
other vector of `n` entries: every entry is overwritten. -/
theorem forLoop_layerBody_overwrite (d sg th : ℚ) (used : Nat → Option (List ℚ))
    (v1 v2 : List ℚ) (g : RandGauss) (n : Nat) (t : List ℚ × RandGauss)
    (h : forLoop (layerBody (cutStep d sg th) used) n (v1, g) = Except.ok t)
    (h1 : v1.length = n) (h2 : v2.length = n) :
    forLoop (layerBody (cutStep d sg th) used) n (v2, g) = Except.ok t := by
  obtain ⟨_, hval, _, hg⟩ := forLoop_layerBody_ok d sg th used v1 g n t h
  obtain ⟨t2, ht2, _⟩ := forLoop_layerBody_succeeds (cutStep d sg th) used v2 g n
    (fun i hi => by
      obtain ⟨_, cells, hu, _⟩ := hval i hi
      exact ⟨by omega, by simp [hu]⟩)
  obtain ⟨_, _, _, hg2⟩ := forLoop_layerBody_ok d sg th used v2 g n t2 ht2
  have hv1 := forLoop_layerBody_values d sg th used v1 g n t h h1
  have hv2 := forLoop_layerBody_values d sg th used v2 g n t2 ht2 h2
  have : t2 = t := Prod.ext (by rw [hv1, hv2]) (by rw [hg, hg2])
  rw [ht2, this]

theorem sumAbove_antitone (t1 t2 : ℚ) (h0 : 0 ≤ t1) (h12 : t1 ≤ t2) (xs : List ℚ) :
    sumAbove t2 xs ≤ sumAbove t1 xs := by
  induction xs with
  | nil => simp [sumAbove]
  | cons x xs ih =>
    simp only [sumAbove] at ih ⊢
    by_cases h2 : x > t2
    · have h1 : x > t1 := lt_of_le_of_lt h12 h2
      simp only [List.filter_cons, h2, h1, decide_True, if_true, List.sum_cons]
      linarith
    · by_cases h1 : x > t1
      · have hx : 0 ≤ x := le_of_lt (lt_of_le_of_lt h0 h1)
        simp only [List.filter_cons, h2, h1, decide_True, decide_False, if_true,
          List.sum_cons]
        simp only [Bool.false_eq_true, if_false]
        linarith
      · simp only [List.filter_cons, h2, h1, decide_False]
        simpa using ih

theorem accumulate_cutStep_antitone (d sg t1 t2 : ℚ) (h0 : 0 ≤ t1) (h12 : t1 ≤ t2)
    (cells : List ℚ) (g : RandGauss) :
    (accumulate (cutStep d sg t2) cells 0 g).1 ≤ (accumulate (cutStep d sg t1) cells 0 g).1 := by
  rw [accumulate_cutStep_fst, accumulate_cutStep_fst, zero_add, zero_add]
  exact sumAbove_antitone t1 t2 h0 h12 _

theorem emptyCEE_EndOfEventAction :
    EndOfEventAction demoConstants demoSD emptyCEEEvent demoProcess
      = Except.error Failure.undefined := by
  norm_num [EndOfEventAction, demoConstants, demoSD, emptyCEEEvent, demoProcess,
    demoGauss, GetCEEHitsCollection, GetCHEHitsCollection, GetAHCALHitsCollection, forLoop,
    CEELayerBody, CHELayerBody, AHCALLayerBody, accumulate, ApplyHGCALCut, ApplyAHCut,
    G4RandGauss.shoot, assignAt, HGCALTBEventAction.construct, accumulatePlus,
    List.replicate, List.set]

theorem demo_CEE_loop :
    forLoop (CEELayerBody demoConstants [[2, 4]]) demoConstants.CEELayers
        (demoProcess.action.fCEELayerSignals, demoProcess.gauss)
      = Except.ok ([3], { draws := fun k => if k % 2 = 0 then 1 else -1, pos := 2 }) := by
  norm_num [demoConstants, demoProcess, demoGauss, forLoop, CEELayerBody, accumulate,
    ApplyHGCALCut, G4RandGauss.shoot, assignAt, HGCALTBEventAction.construct,
    List.replicate, List.set]

/-! ## Claims -/

/-- C1: for every cell list, positive divisor, threshold and noise samples (one per cell, in
input order), the fold of `ApplyHGCALCut` (and of `ApplyAHCut`) from 0 returns the sum, in
input order, of the values `cell_i / divisor + n_i` that are strictly above the threshold. -/
theorem C1_reducer_sum (c : HGCALTBConstants) (_hSi : 0 < c.MIPSilicon) (_hTile : 0 < c.MIPTile)
    (cells : List ℚ) (g : RandGauss) :
    (accumulate (ApplyHGCALCut c) cells 0 g).1
        = sumAbove c.CEEThreshold
            (calibrated c.MIPSilicon cells (noiseSamples c.CEENoiseSigma cells.length g))
      ∧ (accumulate (ApplyAHCut c) cells 0 g).1
        = sumAbove c.AHCALThreshold
            (calibrated c.MIPTile cells (noiseSamples c.AHCALNoiseSigma cells.length g)) := by
  rw [ApplyHGCALCut_eq, ApplyAHCut_eq, accumulate_cutStep_fst, accumulate_cutStep_fst]
  simp

/-- Witness of C1 on the cell list 2, 4, 6 with the alternating generator. -/
theorem C1_reducer_sum_witness :
    (0 < demoConstants.MIPSilicon ∧ 0 < demoConstants.MIPTile) ∧
    ((accumulate (ApplyHGCALCut demoConstants) [2, 4, 6] 0 demoGauss).1
        = sumAbove demoConstants.CEEThreshold
            (calibrated demoConstants.MIPSilicon [2, 4, 6]
              (noiseSamples demoConstants.CEENoiseSigma ([2, 4, 6] : List ℚ).length demoGauss))
      ∧ (accumulate (ApplyAHCut demoConstants) [2, 4, 6] 0 demoGauss).1
        = sumAbove demoConstants.AHCALThreshold
            (calibrated demoConstants.MIPTile [2, 4, 6]
              (noiseSamples demoConstants.AHCALNoiseSigma ([2, 4, 6] : List ℚ).length
                demoGauss))) :=
  ⟨⟨by norm_num [demoConstants], by norm_num [demoConstants]⟩,
    C1_reducer_sum demoConstants (by norm_num [demoConstants]) (by norm_num [demoConstants])
      [2, 4, 6] demoGauss⟩

/-- C2: for a CHE layer at or beyond `CHESevenWaferLayers` whose cell list has at least
`CEECells - 1` cells, the signal stored by a successful `EndOfEventAction` is the fold of
`ApplyHGCALCut` from 0 over the first `CEECells - 1` cells only (from the generator state
reached after the CEE layers and the earlier CHE layers); replacing the later cells of that
layer by any other cells leaves the stored signal unchanged. -/
theorem C2_CHE_single_wafer (c : HGCALTBConstants) (sd : G4SDManager) (event : G4Event)
    (p q : Process) (CEEHC CHEHC : HitsCollection)
    (hq : EndOfEventAction c sd event p = Except.ok q)
    (hCEE : event.GetHC sd.CEEHCID = some CEEHC)
    (hCHE : event.GetHC sd.CHEHCID = some CHEHC)
    (i : Nat) (hi : i < c.CHELayers) (hb : c.CHESevenWaferLayers ≤ i)
    (cells : List ℚ) (hcells : CHEHC[i]? = some cells)
    (hlen : c.CEECells - 1 ≤ cells.length) :
    q.action.fCHELayerSignals[i]?
        = some (accumulate (ApplyHGCALCut c) (cells.take (c.CEECells - 1)) 0
            (p.gauss.advance
              (drawsBefore (CEEUsed CEEHC) c.CEELayers
                + drawsBefore (CHEUsed c CHEHC) i))).1
      ∧ ∀ (later : List ℚ) (event2 : G4Event) (q2 : Process),
          event2.GetHC sd.CEEHCID = some CEEHC →
          event2.GetHC sd.CHEHCID
            = some (CHEHC.set i (cells.take (c.CEECells - 1) ++ later)) →
          EndOfEventAction c sd event2 p = Except.ok q2 →
          q2.action.fCHELayerSignals[i]? = q.action.fCHELayerSignals[i]? := by
  have hfirst := CHE_single_wafer_value c sd event p q CEEHC CHEHC hq hCEE hCHE i hi hb
    cells hcells
  refine ⟨hfirst, ?_⟩
  intro later event2 q2 h1 h2 hq2
  have hiL : i < CHEHC.length := by
    rcases Nat.lt_or_ge i CHEHC.length with h | h
    · exact h
    · rw [List.getElem?_eq_none h] at hcells
      cases hcells
  have hset : (CHEHC.set i (cells.take (c.CEECells - 1) ++ later))[i]?
      = some (cells.take (c.CEECells - 1) ++ later) := by
    simp [hiL]
  have hsecond := CHE_single_wafer_value c sd event2 p q2 CEEHC _ hq2 h1 h2 i hi hb _ hset
  rw [hfirst, hsecond]
  have htake : (cells.take (c.CEECells - 1) ++ later).take (c.CEECells - 1)
      = cells.take (c.CEECells - 1) := by
    rw [List.take_append_of_le_length (by simp [hlen])]
    simp
  have hdraws : drawsBefore (CHEUsed c (CHEHC.set i (cells.take (c.CEECells - 1) ++ later))) i
      = drawsBefore (CHEUsed c CHEHC) i := by
    apply drawsBefore_congr
    intro j hj
    simp only [CHEUsed]
    rw [List.getElem?_set_ne (by omega)]
  rw [htake, hdraws]

/-- Witness of C2: with `CEECells = 4`, the ten cell list of the second CHE layer of
`demoEvent` is reduced over its first 3 cells only. -/
theorem C2_CHE_single_wafer_witness :
    (EndOfEventAction demoConstants demoSD demoEvent demoProcess = Except.ok demoFinal ∧
      ([[1, 2], [1, 2, 3, 4, 5, 6, 7, 8, 9, 10]] : HitsCollection)[1]?
        = some [1, 2, 3, 4, 5, 6, 7, 8, 9, 10] ∧
      1 < demoConstants.CHELayers ∧
      demoConstants.CHESevenWaferLayers ≤ 1 ∧
      demoConstants.CEECells - 1 = 3 ∧
      demoConstants.CEECells - 1 ≤ ([1, 2, 3, 4, 5, 6, 7, 8, 9, 10] : List ℚ).length) ∧
    (demoFinal.action.fCHELayerSignals[1]?
        = some (accumulate (ApplyHGCALCut demoConstants)
            (([1, 2, 3, 4, 5, 6, 7, 8, 9, 10] : List ℚ).take (demoConstants.CEECells - 1)) 0
            (demoProcess.gauss.advance
              (drawsBefore (CEEUsed [[2, 4]]) demoConstants.CEELayers
                + drawsBefore
                    (CHEUsed demoConstants [[1, 2], [1, 2, 3, 4, 5, 6, 7, 8, 9, 10]]) 1))).1
      ∧ ∀ (later : List ℚ) (event2 : G4Event) (q2 : Process),
          event2.GetHC demoSD.CEEHCID = some [[2, 4]] →
          event2.GetHC demoSD.CHEHCID
            = some (([[1, 2], [1, 2, 3, 4, 5, 6, 7, 8, 9, 10]] : HitsCollection).set 1
                (([1, 2, 3, 4, 5, 6, 7, 8, 9, 10] : List ℚ).take
                  (demoConstants.CEECells - 1) ++ later)) →
          EndOfEventAction demoConstants demoSD event2 demoProcess = Except.ok q2 →
          q2.action.fCHELayerSignals[1]? = demoFinal.action.fCHELayerSignals[1]?) :=
  ⟨⟨demo_EndOfEventAction, by rfl, by decide, by decide, by rfl, by decide⟩,
    C2_CHE_single_wafer demoConstants demoSD demoEvent demoProcess demoFinal
      [[2, 4]] [[1, 2], [1, 2, 3, 4, 5, 6, 7, 8, 9, 10]] demo_EndOfEventAction
      (by simp [demoEvent, demoSD]) (by simp [demoEvent, demoSD]) 1
      (by decide) (by decide) [1, 2, 3, 4, 5, 6, 7, 8, 9, 10] (by rfl) (by simp [demoConstants])⟩

/-- Counterexample to C3 as stated: under the unit policy (divisor 1, sigma 0, threshold 0)
and with non-negative cells, the second CHE layer of `demoEvent`, which is past the seven
wafer layers, gets the signal 6 (its first three cells) and not the sum 55 of its raw list;
the grand total is 18 and not the sum 67 of all raw cells. -/
theorem C3_counterexample :
    (unitConstants.MIPSilicon = 1 ∧ unitConstants.CEENoiseSigma = 0 ∧
      unitConstants.CEEThreshold = 0 ∧ unitConstants.MIPTile = 1 ∧
      unitConstants.AHCALNoiseSigma = 0 ∧ unitConstants.AHCALThreshold = 0) ∧
    EndOfEventAction unitConstants demoSD demoEvent demoProcess = Except.ok unitFinal ∧
    demoEvent.GetHC demoSD.CHEHCID = some [[1, 2], [1, 2, 3, 4, 5, 6, 7, 8, 9, 10]] ∧
    unitFinal.action.fCHELayerSignals[1]? = some 6 ∧
    unitFinal.action.fCHELayerSignals[1]?
      ≠ some ([1, 2, 3, 4, 5, 6, 7, 8, 9, 10] : List ℚ).sum ∧
    unitFinal.ntuple.map (fun row => row.HGCALTot) = [18] ∧
    unitFinal.ntuple.map (fun row => row.HGCALTot)
      ≠ [([2, 4] : List ℚ).sum + (([1, 2] : List ℚ).sum
          + ([1, 2, 3, 4, 5, 6, 7, 8, 9, 10] : List ℚ).sum) + ([3] : List ℚ).sum] := by
  refine ⟨⟨rfl, rfl, rfl, rfl, rfl, rfl⟩, unit_EndOfEventAction, by simp [demoEvent, demoSD],
    by simp [unitFinal], ?_, by simp [unitFinal], ?_⟩ <;> norm_num [unitFinal]

/-- C3 (amended): under the unit policy (divisor 1, sigma 0, threshold 0 for all three
subdetectors), with non-negative raw cells and per-layer vectors of the fixed layer counts, a
successful `EndOfEventAction` stores the exact sum of the raw list for every CEE layer, every
CHE layer below `CHESevenWaferLayers` and every AHCAL layer; for a CHE layer at or beyond
`CHESevenWaferLayers` it stores the exact sum of the first `CEECells - 1` cells; and the
grand total of the row equals the sum of all the cells so reduced. -/
theorem C3_unit_policy_sums (c : HGCALTBConstants) (sd : G4SDManager) (event : G4Event)
    (p q : Process) (CEEHC CHEHC AHCALHC : HitsCollection)
    (hSi : c.MIPSilicon = 1) (hTile : c.MIPTile = 1)
    (hsg1 : c.CEENoiseSigma = 0) (hsg2 : c.AHCALNoiseSigma = 0)
    (hth1 : c.CEEThreshold = 0) (hth2 : c.AHCALThreshold = 0)
    (hCEE : event.GetHC sd.CEEHCID = some CEEHC)
    (hCHE : event.GetHC sd.CHEHCID = some CHEHC)
    (hAH : event.GetHC sd.AHCALHCID = some AHCALHC)
    (hnn1 : ∀ cells ∈ CEEHC, ∀ x ∈ cells, 0 ≤ x)
    (hnn2 : ∀ cells ∈ CHEHC, ∀ x ∈ cells, 0 ≤ x)
    (hnn3 : ∀ cells ∈ AHCALHC, ∀ x ∈ cells, 0 ≤ x)
    (hl1 : p.action.fCEELayerSignals.length = c.CEELayers)
    (hl2 : p.action.fCHELayerSignals.length = c.CHELayers)
    (hl3 : p.action.fAHCALLayerSignals.length = c.AHCALLayers)
    (hq : EndOfEventAction c sd event p = Except.ok q) :
    (∀ i, i < c.CEELayers →
      ∃ cells, CEEHC[i]? = some cells ∧ q.action.fCEELayerSignals[i]? = some cells.sum) ∧
    (∀ i, i < c.CHELayers → i < c.CHESevenWaferLayers →
      ∃ cells, CHEHC[i]? = some cells ∧ q.action.fCHELayerSignals[i]? = some cells.sum) ∧
    (∀ i, i < c.CHELayers → c.CHESevenWaferLayers ≤ i →
      ∃ cells, CHEHC[i]? = some cells ∧
        q.action.fCHELayerSignals[i]? = some (cells.take (c.CEECells - 1)).sum) ∧
    (∀ i, i < c.AHCALLayers →
      ∃ cells, AHCALHC[i]? = some cells ∧
        q.action.fAHCALLayerSignals[i]? = some cells.sum) ∧
    ∃ row, q.ntuple = p.ntuple ++ [row] ∧
      row.HGCALTot = usedTotal (CEEUsed CEEHC) c.CEELayers
        + usedTotal (CHEUsed c CHEHC) c.CHELayers
        + usedTotal (AHCALUsed AHCALHC) c.AHCALLayers := by
  rw [EndOfEventAction_ok_iff] at hq
  obtain ⟨a, b, d, s1, s2, s3, h1, h2, h3, l1, l2, l3, rfl⟩ := hq
  rw [hCEE] at h1
  rw [hCHE] at h2
  rw [hAH] at h3
  cases h1
  cases h2
  cases h3
  rw [hSi, hsg1, hth1] at l1 l2
  rw [hTile, hsg2, hth2] at l3
  obtain ⟨v1, t1⟩ := unit_loop _ _ _ _ _ l1 hl1 (CEEUsed_nonneg CEEHC hnn1)
  obtain ⟨v2, t2⟩ := unit_loop _ _ _ _ _ l2 hl2 (CHEUsed_nonneg c CHEHC hnn2)
  obtain ⟨v3, t3⟩ := unit_loop _ _ _ _ _ l3 hl3 (AHCALUsed_nonneg AHCALHC hnn3)
  refine ⟨v1, ?_, ?_, v3, ?_⟩
  · intro i hi hlt
    obtain ⟨used, hu, hv⟩ := v2 i hi
    obtain ⟨cells, hc, hcase⟩ := CHEUsed_cases c CHEHC i used hu
    refine ⟨cells, hc, ?_⟩
    rcases hcase with ⟨_, rfl⟩ | ⟨hge, _⟩
    · exact hv
    · omega
  · intro i hi hge
    obtain ⟨used, hu, hv⟩ := v2 i hi
    obtain ⟨cells, hc, hcase⟩ := CHEUsed_cases c CHEHC i used hu
    refine ⟨cells, hc, ?_⟩
    rcases hcase with ⟨hlt, _⟩ | ⟨_, _, _, rfl⟩
    · omega
    · exact hv
  · exact ⟨_, rfl, by simp only [finalProcess, t1, t2, t3]⟩

/-- Witness of C3 (amended) on `demoEvent` under `unitConstants`. -/
theorem C3_unit_policy_sums_witness :
    (EndOfEventAction unitConstants demoSD demoEvent demoProcess = Except.ok unitFinal) ∧
    ((∀ i, i < unitConstants.CEELayers →
      ∃ cells, ([[2, 4]] : HitsCollection)[i]? = some cells ∧
        unitFinal.action.fCEELayerSignals[i]? = some cells.sum) ∧
    (∀ i, i < unitConstants.CHELayers → i < unitConstants.CHESevenWaferLayers →
      ∃ cells, ([[1, 2], [1, 2, 3, 4, 5, 6, 7, 8, 9, 10]] : HitsCollection)[i]? = some cells ∧
        unitFinal.action.fCHELayerSignals[i]? = some cells.sum) ∧
    (∀ i, i < unitConstants.CHELayers → unitConstants.CHESevenWaferLayers ≤ i →
      ∃ cells, ([[1, 2], [1, 2, 3, 4, 5, 6, 7, 8, 9, 10]] : HitsCollection)[i]? = some cells ∧
        unitFinal.action.fCHELayerSignals[i]?
          = some (cells.take (unitConstants.CEECells - 1)).sum) ∧
    (∀ i, i < unitConstants.AHCALLayers →
      ∃ cells, ([[3]] : HitsCollection)[i]? = some cells ∧
        unitFinal.action.fAHCALLayerSignals[i]? = some cells.sum) ∧
    ∃ row, unitFinal.ntuple = demoProcess.ntuple ++ [row] ∧
      row.HGCALTot = usedTotal (CEEUsed [[2, 4]]) unitConstants.CEELayers
        + usedTotal (CHEUsed unitConstants [[1, 2], [1, 2, 3, 4, 5, 6, 7, 8, 9, 10]])
            unitConstants.CHELayers
        + usedTotal (AHCALUsed [[3]]) unitConstants.AHCALLayers) :=
  ⟨unit_EndOfEventAction,
    C3_unit_policy_sums unitConstants demoSD demoEvent demoProcess unitFinal
      [[2, 4]] [[1, 2], [1, 2, 3, 4, 5, 6, 7, 8, 9, 10]] [[3]]
      rfl rfl rfl rfl rfl rfl
      (by simp [demoEvent, demoSD]) (by simp [demoEvent, demoSD]) (by simp [demoEvent, demoSD])
      (by intro cells hc x hx; simp at hc; subst hc; simp at hx; rcases hx with rfl | rfl <;> norm_num)
      (by
        intro cells hc x hx
        simp at hc
        rcases hc with rfl | rfl
        · simp at hx; rcases hx with rfl | rfl <;> norm_num
        · simp at hx
          rcases hx with rfl | rfl | rfl | rfl | rfl | rfl | rfl | rfl | rfl | rfl <;> norm_num)
      (by intro cells hc x hx; simp at hc; subst hc; simp at hx; subst hx; norm_num)
      (by simp [demoProcess, HGCALTBEventAction.construct, unitConstants, demoConstants])
      (by simp [demoProcess, HGCALTBEventAction.construct, unitConstants, demoConstants])
      (by simp [demoProcess, HGCALTBEventAction.construct, unitConstants, demoConstants])
      unit_EndOfEventAction⟩

/-- Counterexample to C4 as stated: on `shortEvent`, whose second CHE layer (past the seven
wafer layers) has 2 cells where the range asks for 3, `EndOfEventAction` raises no
exception and reports nothing: the run ends in the undefined access, which is not the
fatal failure of any collection. -/
theorem C4_counterexample :
    shortEvent.GetHC demoSD.CHEHCID = some [[1, 2], [1, 2]] ∧
    demoConstants.CHESevenWaferLayers ≤ 1 ∧
    ([1, 2] : List ℚ).length < demoConstants.CEECells - 1 ∧
    EndOfEventAction demoConstants demoSD shortEvent demoProcess
      = Except.error Failure.undefined ∧
    EndOfEventAction demoConstants demoSD shortEvent demoProcess
      ≠ Except.error (Failure.fatal demoSD.CHEHCID) := by
  refine ⟨by simp [shortEvent, demoSD], by decide, by decide, short_EndOfEventAction, ?_⟩
  rw [short_EndOfEventAction]
  intro h
  cases h

/-- C4 (amended): when the CEE and CHE collections resolve and a CHE layer at or beyond
`CHESevenWaferLayers` has fewer than `CEECells - 1` cells, `EndOfEventAction` makes no
length check and raises no exception: the range `begin() .. begin() + (CEECells - 1)` runs
past the end of the list, so the run ends in an undefined access; no per-layer sum and no
ntuple row is defined for the event. -/
theorem C4_short_slice_undefined (c : HGCALTBConstants) (sd : G4SDManager) (event : G4Event)
    (p : Process) (CEEHC CHEHC : HitsCollection)
    (hCEE : event.GetHC sd.CEEHCID = some CEEHC)
    (hCHE : event.GetHC sd.CHEHCID = some CHEHC)
    (i : Nat) (hi : i < c.CHELayers) (hb : c.CHESevenWaferLayers ≤ i)
    (cells : List ℚ) (hcells : CHEHC[i]? = some cells)
    (hshort : cells.length < c.CEECells - 1) :
    EndOfEventAction c sd event p = Except.error Failure.undefined := by
  cases h : EndOfEventAction c sd event p with
  | ok q =>
    exfalso
    rw [EndOfEventAction_ok_iff] at h
    obtain ⟨a, b, d, s1, s2, s3, h1, h2, _, _, l2, _, _⟩ := h
    rw [hCHE] at h2
    cases h2
    obtain ⟨_, hval, _, _⟩ := forLoop_layerBody_ok _ _ _ _ _ _ _ _ l2
    obtain ⟨_, used, hu, _⟩ := hval i hi
    obtain ⟨cells2, hc2, hcase⟩ := CHEUsed_cases c CHEHC i used hu
    rw [hcells] at hc2
    cases hc2
    rcases hcase with ⟨hlt, _⟩ | ⟨_, _, hge, _⟩
    · omega
    · omega
  | error e =>
    rcases EndOfEventAction_error c sd event p e h with h0 | ⟨_, h1⟩ | ⟨_, h2⟩ | ⟨h3, _⟩
    · rw [h0]
    · rw [hCEE] at h1; cases h1
    · rw [hCHE] at h2; cases h2
    · exfalso
      subst h3
      unfold EndOfEventAction GetCEEHitsCollection GetCHEHitsCollection at h
      simp only [CEELayerBody_eq, CHELayerBody_eq, AHCALLayerBody_eq, hCEE, hCHE] at h
      cases l1 : forLoop (layerBody (cutStep c.MIPSilicon c.CEENoiseSigma c.CEEThreshold)
          (CEEUsed CEEHC)) c.CEELayers (p.action.fCEELayerSignals, p.gauss) with
      | error e1 =>
        rw [l1] at h
        have := forLoop_layerBody_error _ _ _ _ _ l1
        subst this
        cases h
      | ok s1 =>
        rw [l1] at h
        simp only at h
        cases l2 : forLoop (layerBody (cutStep c.MIPSilicon c.CEENoiseSigma c.CEEThreshold)
            (CHEUsed c CHEHC)) c.CHELayers (p.action.fCHELayerSignals, s1.2) with
        | error e2 =>
          rw [l2] at h
          have := forLoop_layerBody_error _ _ _ _ _ l2
          subst this
          cases h
        | ok s2 =>
          obtain ⟨_, hval, _, _⟩ := forLoop_layerBody_ok _ _ _ _ _ _ _ _ l2
          obtain ⟨_, used, hu, _⟩ := hval i hi
          obtain ⟨cells2, hc2, hcase⟩ := CHEUsed_cases c CHEHC i used hu
          rw [hcells] at hc2
          cases hc2
          rcases hcase with ⟨hlt, _⟩ | ⟨_, _, hge, _⟩
          · omega
          · omega

/-- Witness of C4 (amended) on `shortEvent`. -/
theorem C4_short_slice_undefined_witness :
    (shortEvent.GetHC demoSD.CEEHCID = some [[2, 4]] ∧
      shortEvent.GetHC demoSD.CHEHCID = some [[1, 2], [1, 2]] ∧
      1 < demoConstants.CHELayers ∧ demoConstants.CHESevenWaferLayers ≤ 1 ∧
      ([[1, 2], [1, 2]] : HitsCollection)[1]? = some [1, 2] ∧
      ([1, 2] : List ℚ).length < demoConstants.CEECells - 1) ∧
    EndOfEventAction demoConstants demoSD shortEvent demoProcess
      = Except.error Failure.undefined :=
  ⟨⟨by simp [shortEvent, demoSD], by simp [shortEvent, demoSD], by decide, by decide,
      by rfl, by decide⟩,
    C4_short_slice_undefined demoConstants demoSD shortEvent demoProcess
      [[2, 4]] [[1, 2], [1, 2]] (by simp [shortEvent, demoSD]) (by simp [shortEvent, demoSD])
      1 (by decide) (by decide) [1, 2] (by rfl) (by decide)⟩

/-- Counterexample to C5 as stated: on `emptyCEEEvent` the CHE collection cannot be resolved,
yet `EndOfEventAction` does not end in the fatal exception of that lookup: the CEE
collection resolves to a collection without hits, the loop over the CEE layers indexes it
out of range, and the run ends in that undefined access before the CHE lookup is made. -/
theorem C5_counterexample :
    emptyCEEEvent.GetHC demoSD.CEEHCID = some [] ∧
    emptyCEEEvent.GetHC demoSD.CHEHCID = none ∧
    0 < demoConstants.CEELayers ∧
    EndOfEventAction demoConstants demoSD emptyCEEEvent demoProcess
      = Except.error Failure.undefined ∧
    EndOfEventAction demoConstants demoSD emptyCEEEvent demoProcess
      ≠ Except.error (Failure.fatal demoSD.CHEHCID) := by
  refine ⟨by simp [emptyCEEEvent, demoSD], by simp [emptyCEEEvent, demoSD], by decide,
    emptyCEE_EndOfEventAction, ?_⟩
  rw [emptyCEE_EndOfEventAction]
  intro h
  cases h

/-- C5 (amended): `EndOfEventAction` ends in the fatal exception of a lookup whenever the
lookup is reached and returns null: for the CEE collection always, for the CHE collection
when the loop over the CEE layers returns, for the AHCAL collection when the loops over the
CEE and CHE layers return. Whenever one of the three lookups is null the call does not
return normally and adds no ntuple row. From per-layer vectors of the fixed layer counts the
loop over the CEE layers returns on a collection with one hit per layer and the loop over the
CHE layers returns on a well sized collection; and when all three collections resolve and
are well sized the call returns and adds exactly one row. -/
theorem C5_missing_collection_fatal (c : HGCALTBConstants) (sd : G4SDManager)
    (event : G4Event) (p : Process) :
    (event.GetHC sd.CEEHCID = none →
      EndOfEventAction c sd event p = Except.error (Failure.fatal sd.CEEHCID)) ∧
    (∀ CEEHC s1, event.GetHC sd.CEEHCID = some CEEHC →
      forLoop (CEELayerBody c CEEHC) c.CEELayers (p.action.fCEELayerSignals, p.gauss)
        = Except.ok s1 →
      event.GetHC sd.CHEHCID = none →
      EndOfEventAction c sd event p = Except.error (Failure.fatal sd.CHEHCID)) ∧
    (∀ CEEHC CHEHC s1 s2, event.GetHC sd.CEEHCID = some CEEHC →
      forLoop (CEELayerBody c CEEHC) c.CEELayers (p.action.fCEELayerSignals, p.gauss)
        = Except.ok s1 →
      event.GetHC sd.CHEHCID = some CHEHC →
      forLoop (CHELayerBody c CHEHC) c.CHELayers (p.action.fCHELayerSignals, s1.2)
        = Except.ok s2 →
      event.GetHC sd.AHCALHCID = none →
      EndOfEventAction c sd event p = Except.error (Failure.fatal sd.AHCALHCID)) ∧
    ((event.GetHC sd.CEEHCID = none ∨ event.GetHC sd.CHEHCID = none ∨
        event.GetHC sd.AHCALHCID = none) →
      ∀ q, EndOfEventAction c sd event p ≠ Except.ok q) ∧
    (SignalsSized c p.action →
      (∀ (CEEHC : HitsCollection) (g : RandGauss), CEEHC.length = c.CEELayers →
        ∃ s1, forLoop (CEELayerBody c CEEHC) c.CEELayers (p.action.fCEELayerSignals, g)
          = Except.ok s1) ∧
      (∀ (CHEHC : HitsCollection) (g : RandGauss), CHEWellSized c CHEHC →
        ∃ s2, forLoop (CHELayerBody c CHEHC) c.CHELayers (p.action.fCHELayerSignals, g)
          = Except.ok s2) ∧
      (∀ CEEHC CHEHC AHCALHC, event.GetHC sd.CEEHCID = some CEEHC →
        event.GetHC sd.CHEHCID = some CHEHC → event.GetHC sd.AHCALHCID = some AHCALHC →
        CEEHC.length = c.CEELayers → CHEWellSized c CHEHC →
        AHCALHC.length = c.AHCALLayers →
        ∃ q row, EndOfEventAction c sd event p = Except.ok q ∧
          q.ntuple = p.ntuple ++ [row])) := by
  refine ⟨?_, ?_, ?_, ?_, ?_⟩
  · intro h1
    unfold EndOfEventAction GetCEEHitsCollection
    simp only [h1]
  · intro CEEHC s1 h1 l1 h2
    unfold EndOfEventAction GetCEEHitsCollection GetCHEHitsCollection
    simp only [h1, l1, h2]
  · intro CEEHC CHEHC s1 s2 h1 l1 h2 l2 h3
    unfold EndOfEventAction GetCEEHitsCollection GetCHEHitsCollection GetAHCALHitsCollection
    simp only [h1, l1, h2, l2, h3]
  · intro hnone q hq
    rw [EndOfEventAction_ok_iff] at hq
    obtain ⟨a, b, d, _, _, _, h1, h2, h3, _⟩ := hq
    rcases hnone with h | h | h
    · rw [h] at h1; cases h1
    · rw [h] at h2; cases h2
    · rw [h] at h3; cases h3
  · intro hsz
    obtain ⟨hz1, hz2, hz3⟩ := hsz
    refine ⟨?_, ?_, ?_⟩
    · intro CEEHC g hw1
      obtain ⟨s1, l1, _⟩ := CEE_loop_succeeds c CEEHC _ g hz1 hw1
      exact ⟨s1, by rw [CEELayerBody_eq]; exact l1⟩
    · intro CHEHC g hw2
      obtain ⟨s2, l2, _⟩ := CHE_loop_succeeds c CHEHC _ g hz2 hw2
      exact ⟨s2, by rw [CHELayerBody_eq]; exact l2⟩
    · intro CEEHC CHEHC AHCALHC h1 h2 h3 hw1 hw2 hw3
      obtain ⟨s1, l1, _⟩ := CEE_loop_succeeds c CEEHC _ p.gauss hz1 hw1
      obtain ⟨s2, l2, _⟩ := CHE_loop_succeeds c CHEHC _ s1.2 hz2 hw2
      obtain ⟨s3, l3, _⟩ := AHCAL_loop_succeeds c AHCALHC _ s2.2 hz3 hw3
      refine ⟨finalProcess p s1 s2 s3, _, ?_, rfl⟩
      rw [EndOfEventAction_ok_iff]
      exact ⟨CEEHC, CHEHC, AHCALHC, s1, s2, s3, h1, h2, h3, l1, l2, l3, rfl⟩

/-- Witness of C5 (amended): on `missingCHEEvent` the loop over the CEE layers returns and
the run ends in the fatal exception of the CHE lookup, with no row added; on `demoEvent`,
from the freshly constructed event action, the call returns with one row added. -/
theorem C5_missing_collection_fatal_witness :
    (missingCHEEvent.GetHC demoSD.CEEHCID = some [[2, 4]] ∧
      forLoop (CEELayerBody demoConstants [[2, 4]]) demoConstants.CEELayers
          (demoProcess.action.fCEELayerSignals, demoProcess.gauss)
        = Except.ok ([3], { draws := fun k => if k % 2 = 0 then 1 else -1, pos := 2 }) ∧
      missingCHEEvent.GetHC demoSD.CHEHCID = none ∧
      SignalsSized demoConstants demoProcess.action ∧
      CHEWellSized demoConstants [[1, 2], [1, 2, 3, 4, 5, 6, 7, 8, 9, 10]]) ∧
    EndOfEventAction demoConstants demoSD missingCHEEvent demoProcess
      = Except.error (Failure.fatal demoSD.CHEHCID) ∧
    (∀ q, EndOfEventAction demoConstants demoSD missingCHEEvent demoProcess ≠ Except.ok q) ∧
    ∃ q row, EndOfEventAction demoConstants demoSD demoEvent demoProcess = Except.ok q ∧
      q.ntuple = demoProcess.ntuple ++ [row] :=
  have hsz : SignalsSized demoConstants demoProcess.action := by
    simp [SignalsSized, demoProcess, HGCALTBEventAction.construct, demoConstants]
  have hCEE : missingCHEEvent.GetHC demoSD.CEEHCID = some [[2, 4]] := by
    simp [missingCHEEvent, demoSD]
  have hCHE : missingCHEEvent.GetHC demoSD.CHEHCID = none := by
    simp [missingCHEEvent, demoSD]
  have hw : CHEWellSized demoConstants [[1, 2], [1, 2, 3, 4, 5, 6, 7, 8, 9, 10]] := by
    decide
  ⟨⟨hCEE, demo_CEE_loop, hCHE, hsz, hw⟩,
    (C5_missing_collection_fatal demoConstants demoSD missingCHEEvent demoProcess).2.1
      [[2, 4]] _ hCEE demo_CEE_loop hCHE,
    (C5_missing_collection_fatal demoConstants demoSD missingCHEEvent
      demoProcess).2.2.2.1 (Or.inr (Or.inl hCHE)),
    ((C5_missing_collection_fatal demoConstants demoSD demoEvent demoProcess).2.2.2.2
      hsz).2.2 [[2, 4]] [[1, 2], [1, 2, 3, 4, 5, 6, 7, 8, 9, 10]] [[3]]
      (by simp [demoEvent, demoSD]) (by simp [demoEvent, demoSD])
      (by simp [demoEvent, demoSD]) (by rfl) hw (by rfl)⟩

/-- C6: in every state reachable from construction by `BeginOfEventAction`, `Addedep` and
`EndOfEventAction` calls that return normally, each of the three per-layer vectors has
exactly its fixed layer count as length; and an `EndOfEventAction` from such a state in
which no cell passes its threshold leaves each vector all zeros of that length. -/
theorem C6_fixed_layer_counts (c : HGCALTBConstants) (a : HGCALTBEventAction)
    (h : Reachable c a) :
    (a.fCEELayerSignals.length = c.CEELayers ∧
      a.fCHELayerSignals.length = c.CHELayers ∧
      a.fAHCALLayerSignals.length = c.AHCALLayers) ∧
    ∀ (sd : G4SDManager) (event : G4Event) (g : RandGauss) (rows : List NtupleRow)
      (q : Process) (CEEHC CHEHC AHCALHC : HitsCollection),
      EndOfEventAction c sd event { action := a, gauss := g, ntuple := rows } = Except.ok q →
      event.GetHC sd.CEEHCID = some CEEHC →
      event.GetHC sd.CHEHCID = some CHEHC →
      event.GetHC sd.AHCALHCID = some AHCALHC →
      NoCellPasses c CEEHC CHEHC AHCALHC g →
      q.action.fCEELayerSignals = List.replicate c.CEELayers 0 ∧
      q.action.fCHELayerSignals = List.replicate c.CHELayers 0 ∧
      q.action.fAHCALLayerSignals = List.replicate c.AHCALLayers 0 := by
  have hsz := Reachable_signalsSized c a h
  refine ⟨hsz, ?_⟩
  obtain ⟨z1, z2, z3⟩ := hsz
  intro sd event g rows q CEEHC CHEHC AHCALHC hq hCEE hCHE hAH hquiet
  rw [EndOfEventAction_ok_iff] at hq
  obtain ⟨_, _, _, s1, s2, s3, h1, h2, h3, l1, l2, l3, rfl⟩ := hq
  rw [hCEE] at h1
  rw [hCHE] at h2
  rw [hAH] at h3
  cases h1
  cases h2
  cases h3
  obtain ⟨_, _, _, g1⟩ := forLoop_layerBody_ok _ _ _ _ _ _ _ _ l1
  obtain ⟨_, _, _, g2⟩ := forLoop_layerBody_ok _ _ _ _ _ _ _ _ l2
  obtain ⟨q1, q2, q3⟩ := hquiet
  simp only at g1 g2
  rw [g1] at l2 g2
  rw [g2] at l3
  exact ⟨quiet_loop _ _ _ _ _ _ _ _ l1 z1 q1, quiet_loop _ _ _ _ _ _ _ _ l2 z2 q2,
    quiet_loop _ _ _ _ _ _ _ _ l3 z3 q3⟩

/-- Witness of C6: the event action of `demoFinal` is reachable (construction, then
`EndOfEventAction` on `demoEvent`) and carries non-zero signals; `EndOfEventAction` on
`quietEvent`, in which no cell passes, leaves all zero vectors of the fixed lengths. -/
theorem C6_fixed_layer_counts_witness :
    Reachable demoConstants demoFinal.action ∧
    (EndOfEventAction demoConstants demoSD quietEvent
        { action := demoFinal.action, gauss := zeroGauss, ntuple := [] }
      = Except.ok quietFinal) ∧
    NoCellPasses demoConstants [[1, 0]] [[1], [0, 1, 0, 7]] [[1]] zeroGauss ∧
    (demoFinal.action.fCEELayerSignals.length = demoConstants.CEELayers ∧
      demoFinal.action.fCHELayerSignals.length = demoConstants.CHELayers ∧
      demoFinal.action.fAHCALLayerSignals.length = demoConstants.AHCALLayers) ∧
    (quietFinal.action.fCEELayerSignals = List.replicate demoConstants.CEELayers 0 ∧
      quietFinal.action.fCHELayerSignals = List.replicate demoConstants.CHELayers 0 ∧
      quietFinal.action.fAHCALLayerSignals = List.replicate demoConstants.AHCALLayers 0) :=
  have hr : Reachable demoConstants demoFinal.action :=
    Reachable.finalize (HGCALTBEventAction.construct demoConstants) demoSD demoEvent
      demoGauss [] demoFinal Reachable.construct demo_EndOfEventAction
  have hquiet : NoCellPasses demoConstants [[1, 0]] [[1], [0, 1, 0, 7]] [[1]] zeroGauss := by
    refine ⟨?_, ?_, ?_⟩
    · intro i hi x hx
      have hi0 : i = 0 := by simp [demoConstants] at hi; omega
      subst hi0
      norm_num [layerValues, calibrated, noiseSamples, CEEUsed, drawsBefore, zeroGauss,
        RandGauss.advance, G4RandGauss.shoot, demoConstants] at hx ⊢
      rcases hx with rfl | rfl <;> norm_num
    · intro i hi x hx
      have hi01 : i = 0 ∨ i = 1 := by simp [demoConstants] at hi; omega
      rcases hi01 with rfl | rfl
      · norm_num [layerValues, calibrated, noiseSamples, CEEUsed, CHEUsed, drawsBefore,
          zeroGauss, RandGauss.advance, G4RandGauss.shoot, demoConstants] at hx ⊢
        subst hx
        norm_num
      · norm_num [layerValues, calibrated, noiseSamples, CEEUsed, CHEUsed, drawsBefore,
          zeroGauss, RandGauss.advance, G4RandGauss.shoot, demoConstants] at hx ⊢
        rcases hx with rfl | rfl | rfl <;> norm_num
    · intro i hi x hx
      have hi0 : i = 0 := by simp [demoConstants] at hi; omega
      subst hi0
      norm_num [layerValues, calibrated, noiseSamples, CEEUsed, CHEUsed, AHCALUsed,
        drawsBefore, zeroGauss, RandGauss.advance, G4RandGauss.shoot, demoConstants] at hx ⊢
      subst hx
      norm_num
  ⟨hr, quiet_EndOfEventAction, hquiet,
    (C6_fixed_layer_counts demoConstants demoFinal.action hr).1,
    (C6_fixed_layer_counts demoConstants demoFinal.action hr).2 demoSD quietEvent zeroGauss []
      quietFinal [[1, 0]] [[1], [0, 1, 0, 7]] [[1]] quiet_EndOfEventAction
      (by simp [quietEvent, demoSD]) (by simp [quietEvent, demoSD])
      (by simp [quietEvent, demoSD]) hquiet⟩

/-- C7: when `EndOfEventAction` returns normally it adds one ntuple row whose three
per-detector totals are the sums of all entries of `fCEELayerSignals`, `fCHELayerSignals`
and `fAHCALLayerSignals` as they stand after the writes of this same call. -/
theorem C7_detector_totals (c : HGCALTBConstants) (sd : G4SDManager) (event : G4Event)
    (p q : Process) (hq : EndOfEventAction c sd event p = Except.ok q) :
    ∃ row, q.ntuple = p.ntuple ++ [row] ∧
      row.CEETot = q.action.fCEELayerSignals.sum ∧
      row.CHETot = q.action.fCHELayerSignals.sum ∧
      row.AHCALTot = q.action.fAHCALLayerSignals.sum := by
  rw [EndOfEventAction_ok_iff] at hq
  obtain ⟨_, _, _, s1, s2, s3, _, _, _, _, _, _, rfl⟩ := hq
  exact ⟨_, rfl, by simp [finalProcess, accumulatePlus_eq],
    by simp [finalProcess, accumulatePlus_eq], by simp [finalProcess, accumulatePlus_eq]⟩

/-- Witness of C7 on `demoEvent`. -/
theorem C7_detector_totals_witness :
    EndOfEventAction demoConstants demoSD demoEvent demoProcess = Except.ok demoFinal ∧
    ∃ row, demoFinal.ntuple = demoProcess.ntuple ++ [row] ∧
      row.CEETot = demoFinal.action.fCEELayerSignals.sum ∧
      row.CHETot = demoFinal.action.fCHELayerSignals.sum ∧
      row.AHCALTot = demoFinal.action.fAHCALLayerSignals.sum :=
  ⟨demo_EndOfEventAction,
    C7_detector_totals demoConstants demoSD demoEvent demoProcess demoFinal
      demo_EndOfEventAction⟩

/-- C8: when `EndOfEventAction` returns normally, the grand total of the row it adds is the
sum of the three per-detector totals of the same row, CEE + CHE + AHCAL. -/
theorem C8_grand_total (c : HGCALTBConstants) (sd : G4SDManager) (event : G4Event)
    (p q : Process) (hq : EndOfEventAction c sd event p = Except.ok q) :
    ∃ row, q.ntuple = p.ntuple ++ [row] ∧
      row.HGCALTot = row.CEETot + row.CHETot + row.AHCALTot := by
  rw [EndOfEventAction_ok_iff] at hq
  obtain ⟨_, _, _, s1, s2, s3, _, _, _, _, _, _, rfl⟩ := hq
  exact ⟨_, rfl, rfl⟩

/-- Witness of C8 on `demoEvent`. -/
theorem C8_grand_total_witness :
    EndOfEventAction demoConstants demoSD demoEvent demoProcess = Except.ok demoFinal ∧
    ∃ row, demoFinal.ntuple = demoProcess.ntuple ++ [row] ∧
      row.HGCALTot = row.CEETot + row.CHETot + row.AHCALTot :=
  ⟨demo_EndOfEventAction,
    C8_grand_total demoConstants demoSD demoEvent demoProcess demoFinal
      demo_EndOfEventAction⟩

/-- C9: for every event action state, `BeginOfEventAction` yields a state with `edep` 0,
`fIntLayer` 0 and every entry of each of the three per-layer vectors 0, the lengths of the
vectors being unchanged. -/
theorem C9_reset_zeroes (a : HGCALTBEventAction) :
    (BeginOfEventAction a).edep = 0 ∧
    (BeginOfEventAction a).fIntLayer = 0 ∧
    (∀ x ∈ (BeginOfEventAction a).fCEELayerSignals, x = 0) ∧
    (∀ x ∈ (BeginOfEventAction a).fCHELayerSignals, x = 0) ∧
    (∀ x ∈ (BeginOfEventAction a).fAHCALLayerSignals, x = 0) ∧
    (BeginOfEventAction a).fCEELayerSignals.length = a.fCEELayerSignals.length ∧
    (BeginOfEventAction a).fCHELayerSignals.length = a.fCHELayerSignals.length ∧
    (BeginOfEventAction a).fAHCALLayerSignals.length = a.fAHCALLayerSignals.length := by
  refine ⟨rfl, rfl, ?_, ?_, ?_, ?_, ?_, ?_⟩ <;> simp [BeginOfEventAction]

/-- C10: `BeginOfEventAction` is idempotent: calling it twice in succession yields the same
state as calling it once. -/
theorem C10_reset_idempotent (a : HGCALTBEventAction) :
    BeginOfEventAction (BeginOfEventAction a) = BeginOfEventAction a := by
  simp [BeginOfEventAction]

/-- C11: for every divisor, noise sigma and threshold, the fold of `ApplyHGCALCut` (and of
`ApplyAHCut`) from 0 over an empty cell list returns exactly 0 and leaves the generator
state as it was: no draw is consumed. -/
theorem C11_empty_list (c : HGCALTBConstants) (g : RandGauss) :
    accumulate (ApplyHGCALCut c) [] 0 g = (0, g) ∧
    accumulate (ApplyAHCut c) [] 0 g = (0, g) :=
  ⟨rfl, rfl⟩

/-- C12: for a single cell `v`, a positive divisor and noise sigma 0, the fold of
`ApplyHGCALCut` (and of `ApplyAHCut`) from 0 returns `v / divisor` if `v / divisor` is
strictly above the threshold and 0 otherwise, whatever the generator state. -/
theorem C12_single_cell_noiseless (c : HGCALTBConstants) (v : ℚ) (g : RandGauss) :
    (0 < c.MIPSilicon → c.CEENoiseSigma = 0 →
      (accumulate (ApplyHGCALCut c) [v] 0 g).1
        = if v / c.MIPSilicon > c.CEEThreshold then v / c.MIPSilicon else 0) ∧
    (0 < c.MIPTile → c.AHCALNoiseSigma = 0 →
      (accumulate (ApplyAHCut c) [v] 0 g).1
        = if v / c.MIPTile > c.AHCALThreshold then v / c.MIPTile else 0) := by
  constructor
  · intro _ hsg
    simp only [accumulate, ApplyHGCALCut, G4RandGauss.shoot, hsg, mul_zero, add_zero]
    split <;> simp
  · intro _ hsg
    simp only [accumulate, ApplyAHCut, G4RandGauss.shoot, hsg, mul_zero, add_zero]
    split <;> simp

/-- Witness of C12 under `unitConstants` (sigma 0) on the cell 3, from two generator
states. -/
theorem C12_single_cell_noiseless_witness :
    (0 < unitConstants.MIPSilicon ∧ unitConstants.CEENoiseSigma = 0 ∧
      0 < unitConstants.MIPTile ∧ unitConstants.AHCALNoiseSigma = 0) ∧
    ((accumulate (ApplyHGCALCut unitConstants) [3] 0 demoGauss).1
        = if 3 / unitConstants.MIPSilicon > unitConstants.CEEThreshold
          then 3 / unitConstants.MIPSilicon else 0) ∧
    ((accumulate (ApplyAHCut unitConstants) [3] 0 zeroGauss).1
        = if 3 / unitConstants.MIPTile > unitConstants.AHCALThreshold
          then 3 / unitConstants.MIPTile else 0) :=
  ⟨⟨by norm_num [unitConstants], rfl, by norm_num [unitConstants], rfl⟩,
    (C12_single_cell_noiseless unitConstants 3 demoGauss).1
      (by norm_num [unitConstants]) rfl,
    (C12_single_cell_noiseless unitConstants 3 zeroGauss).2
      (by norm_num [unitConstants]) rfl⟩

/-- C13: when `EndOfEventAction` returns normally, the signal stored for every CEE layer,
for every CHE layer below `CHESevenWaferLayers` and for every AHCAL layer is the fold from 0
over the full cell list of that layer, at the index of the layer; CEE and CHE layers use
`ApplyHGCALCut`, which is the cut step with `MIPSilicon`, `CEENoiseSigma`, `CEEThreshold`,
and AHCAL layers use `ApplyAHCut`, which is the cut step with `MIPTile`, `AHCALNoiseSigma`,
`AHCALThreshold`. The generator state of each fold is the one reached after the layers
before it, in the order CEE, CHE, AHCAL. -/
theorem C13_full_list_layers (c : HGCALTBConstants) (sd : G4SDManager) (event : G4Event)
    (p q : Process) (CEEHC CHEHC AHCALHC : HitsCollection)
    (hq : EndOfEventAction c sd event p = Except.ok q)
    (hCEE : event.GetHC sd.CEEHCID = some CEEHC)
    (hCHE : event.GetHC sd.CHEHCID = some CHEHC)
    (hAH : event.GetHC sd.AHCALHCID = some AHCALHC) :
    (∀ i, i < c.CEELayers →
      ∃ cells, CEEHC[i]? = some cells ∧
        q.action.fCEELayerSignals[i]?
          = some (accumulate (ApplyHGCALCut c) cells 0
              (p.gauss.advance (drawsBefore (CEEUsed CEEHC) i))).1) ∧
    (∀ i, i < c.CHELayers → i < c.CHESevenWaferLayers →
      ∃ cells, CHEHC[i]? = some cells ∧
        q.action.fCHELayerSignals[i]?
          = some (accumulate (ApplyHGCALCut c) cells 0
              (p.gauss.advance (drawsBefore (CEEUsed CEEHC) c.CEELayers
                + drawsBefore (CHEUsed c CHEHC) i))).1) ∧
    (∀ i, i < c.AHCALLayers →
      ∃ cells, AHCALHC[i]? = some cells ∧
        q.action.fAHCALLayerSignals[i]?
          = some (accumulate (ApplyAHCut c) cells 0
              (p.gauss.advance (drawsBefore (CEEUsed CEEHC) c.CEELayers
                + drawsBefore (CHEUsed c CHEHC) c.CHELayers
                + drawsBefore (AHCALUsed AHCALHC) i))).1) ∧
    ApplyHGCALCut c = cutStep c.MIPSilicon c.CEENoiseSigma c.CEEThreshold ∧
    ApplyAHCut c = cutStep c.MIPTile c.AHCALNoiseSigma c.AHCALThreshold := by
  rw [EndOfEventAction_ok_iff] at hq
  obtain ⟨_, _, _, s1, s2, s3, h1, h2, h3, l1, l2, l3, rfl⟩ := hq
  rw [hCEE] at h1
  rw [hCHE] at h2
  rw [hAH] at h3
  cases h1
  cases h2
  cases h3
  obtain ⟨_, v1, _, g1⟩ := forLoop_layerBody_ok _ _ _ _ _ _ _ _ l1
  obtain ⟨_, v2, _, g2⟩ := forLoop_layerBody_ok _ _ _ _ _ _ _ _ l2
  obtain ⟨_, v3, _, _⟩ := forLoop_layerBody_ok _ _ _ _ _ _ _ _ l3
  refine ⟨?_, ?_, ?_, ApplyHGCALCut_eq c, ApplyAHCut_eq c⟩
  · intro i hi
    obtain ⟨_, cells, hu, hv⟩ := v1 i hi
    exact ⟨cells, hu, by simp only [finalProcess, hv, ApplyHGCALCut_eq]⟩
  · intro i hi hlt
    obtain ⟨_, used, hu, hv⟩ := v2 i hi
    obtain ⟨cells, hc, hcase⟩ := CHEUsed_cases c CHEHC i used hu
    refine ⟨cells, hc, ?_⟩
    rcases hcase with ⟨_, rfl⟩ | ⟨hge, _⟩
    · simp only [finalProcess, hv, g1, advance_advance, ApplyHGCALCut_eq]
    · omega
  · intro i hi
    obtain ⟨_, cells, hu, hv⟩ := v3 i hi
    exact ⟨cells, hu,
      by simp only [finalProcess, hv, g2, g1, advance_advance, ApplyAHCut_eq]⟩

/-- Witness of C13 on `demoEvent`. -/
theorem C13_full_list_layers_witness :
    EndOfEventAction demoConstants demoSD demoEvent demoProcess = Except.ok demoFinal ∧
    ((∀ i, i < demoConstants.CEELayers →
      ∃ cells, ([[2, 4]] : HitsCollection)[i]? = some cells ∧
        demoFinal.action.fCEELayerSignals[i]?
          = some (accumulate (ApplyHGCALCut demoConstants) cells 0
              (demoProcess.gauss.advance (drawsBefore (CEEUsed [[2, 4]]) i))).1) ∧
    (∀ i, i < demoConstants.CHELayers → i < demoConstants.CHESevenWaferLayers →
      ∃ cells, ([[1, 2], [1, 2, 3, 4, 5, 6, 7, 8, 9, 10]] : HitsCollection)[i]? = some cells ∧
        demoFinal.action.fCHELayerSignals[i]?
          = some (accumulate (ApplyHGCALCut demoConstants) cells 0
              (demoProcess.gauss.advance
                (drawsBefore (CEEUsed [[2, 4]]) demoConstants.CEELayers
                  + drawsBefore
                      (CHEUsed demoConstants [[1, 2], [1, 2, 3, 4, 5, 6, 7, 8, 9, 10]])
                      i))).1) ∧
    (∀ i, i < demoConstants.AHCALLayers →
      ∃ cells, ([[3]] : HitsCollection)[i]? = some cells ∧
        demoFinal.action.fAHCALLayerSignals[i]?
          = some (accumulate (ApplyAHCut demoConstants) cells 0
              (demoProcess.gauss.advance
                (drawsBefore (CEEUsed [[2, 4]]) demoConstants.CEELayers
                  + drawsBefore
                      (CHEUsed demoConstants [[1, 2], [1, 2, 3, 4, 5, 6, 7, 8, 9, 10]])
                      demoConstants.CHELayers
                  + drawsBefore (AHCALUsed [[3]]) i))).1) ∧
    ApplyHGCALCut demoConstants
      = cutStep demoConstants.MIPSilicon demoConstants.CEENoiseSigma
          demoConstants.CEEThreshold ∧
    ApplyAHCut demoConstants
      = cutStep demoConstants.MIPTile demoConstants.AHCALNoiseSigma
          demoConstants.AHCALThreshold) :=
  ⟨demo_EndOfEventAction,
    C13_full_list_layers demoConstants demoSD demoEvent demoProcess demoFinal
      [[2, 4]] [[1, 2], [1, 2, 3, 4, 5, 6, 7, 8, 9, 10]] [[3]] demo_EndOfEventAction
      (by simp [demoEvent, demoSD]) (by simp [demoEvent, demoSD])
      (by simp [demoEvent, demoSD])⟩

/-- C14: `Addedep` with `s` sets `edep` to its old value plus `s` and leaves `fIntLayer` and
the three per-layer vectors unchanged; so after `BeginOfEventAction`, then `Addedep` with
`s_1`, ..., `s_n`, then an `EndOfEventAction` that returns normally, the first column of the
added row is `s_1 + ... + s_n`. -/
theorem C14_Addedep_frame (a : HGCALTBEventAction) (s : ℚ) :
    ((Addedep a s).edep = a.edep + s ∧
      (Addedep a s).fIntLayer = a.fIntLayer ∧
      (Addedep a s).fCEELayerSignals = a.fCEELayerSignals ∧
      (Addedep a s).fCHELayerSignals = a.fCHELayerSignals ∧
      (Addedep a s).fAHCALLayerSignals = a.fAHCALLayerSignals) ∧
    ∀ (ss : List ℚ) (c : HGCALTBConstants) (sd : G4SDManager) (event : G4Event)
      (g : RandGauss) (rows : List NtupleRow) (q : Process),
      EndOfEventAction c sd event
          { action := ss.foldl Addedep (BeginOfEventAction a), gauss := g, ntuple := rows }
        = Except.ok q →
      ∃ row, q.ntuple = rows ++ [row] ∧ row.edep = ss.sum := by
  refine ⟨⟨rfl, rfl, rfl, rfl, rfl⟩, ?_⟩
  intro ss c sd event g rows q hq
  rw [EndOfEventAction_ok_iff] at hq
  obtain ⟨_, _, _, s1, s2, s3, _, _, _, _, _, _, rfl⟩ := hq
  refine ⟨_, rfl, ?_⟩
  simp only [finalProcess]
  rw [(foldl_Addedep ss (BeginOfEventAction a)).1]
  simp [BeginOfEventAction]

/-- Witness of C14: after `BeginOfEventAction` and `Addedep` with 1 and 2, the row added
for `demoEvent` has first column 3. -/
theorem C14_Addedep_frame_witness :
    EndOfEventAction demoConstants demoSD demoEvent depositProcess = Except.ok depositFinal ∧
    ∃ row, depositFinal.ntuple = [] ++ [row] ∧ row.edep = ([1, 2] : List ℚ).sum :=
  ⟨deposit_EndOfEventAction,
    (C14_Addedep_frame (HGCALTBEventAction.construct demoConstants) 0).2 [1, 2]
      demoConstants demoSD demoEvent demoGauss [] depositFinal deposit_EndOfEventAction⟩

/-- C15: the cut is strict. If the calibrated and noise added value of a cell is exactly
equal to the threshold, the fold of `ApplyHGCALCut` (and of `ApplyAHCut`) from 0 discards
the cell: the result is the result for the list without that cell, with the draw of that
cell skipped. -/
theorem C15_strict_cut (c : HGCALTBConstants) (pre post : List ℚ) (x : ℚ) (g : RandGauss) :
    (x / c.MIPSilicon + (G4RandGauss.shoot 0 c.CEENoiseSigma (g.advance pre.length)).1
        = c.CEEThreshold →
      (accumulate (ApplyHGCALCut c) (pre ++ x :: post) 0 g).1
        = (accumulate (ApplyHGCALCut c) (pre ++ post) 0 (g.skip pre.length)).1) ∧
    (x / c.MIPTile + (G4RandGauss.shoot 0 c.AHCALNoiseSigma (g.advance pre.length)).1
        = c.AHCALThreshold →
      (accumulate (ApplyAHCut c) (pre ++ x :: post) 0 g).1
        = (accumulate (ApplyAHCut c) (pre ++ post) 0 (g.skip pre.length)).1) := by
  constructor
  · intro h
    rw [ApplyHGCALCut_eq]
    exact accumulate_cutStep_discard _ _ _ pre post x g (by rw [h]; exact lt_irrefl _)
  · intro h
    rw [ApplyAHCut_eq]
    exact accumulate_cutStep_discard _ _ _ pre post x g (by rw [h]; exact lt_irrefl _)

/-- Witness of C15 under `demoConstants` with `zeroGauss`: in the list 2, 1, 4 the cell 1
has the value 1 / 2, equal to `CEEThreshold`; in the list 3, 3 / 2, 6 the cell 3 / 2 has
the value 1 / 2, equal to `AHCALThreshold`. -/
theorem C15_strict_cut_witness :
    (1 / demoConstants.MIPSilicon
        + (G4RandGauss.shoot 0 demoConstants.CEENoiseSigma
            (zeroGauss.advance ([2] : List ℚ).length)).1 = demoConstants.CEEThreshold ∧
      (3 / 2) / demoConstants.MIPTile
        + (G4RandGauss.shoot 0 demoConstants.AHCALNoiseSigma
            (zeroGauss.advance ([3] : List ℚ).length)).1 = demoConstants.AHCALThreshold) ∧
    (accumulate (ApplyHGCALCut demoConstants) ([2] ++ 1 :: [4]) 0 zeroGauss).1
      = (accumulate (ApplyHGCALCut demoConstants) ([2] ++ [4]) 0
          (zeroGauss.skip ([2] : List ℚ).length)).1 ∧
    (accumulate (ApplyAHCut demoConstants) ([3] ++ (3 / 2) :: [6]) 0 zeroGauss).1
      = (accumulate (ApplyAHCut demoConstants) ([3] ++ [6]) 0
          (zeroGauss.skip ([3] : List ℚ).length)).1 :=
  have h1 : 1 / demoConstants.MIPSilicon
      + (G4RandGauss.shoot 0 demoConstants.CEENoiseSigma
          (zeroGauss.advance ([2] : List ℚ).length)).1 = demoConstants.CEEThreshold := by
    norm_num [demoConstants, G4RandGauss.shoot, zeroGauss, RandGauss.advance]
  have h2 : (3 / 2) / demoConstants.MIPTile
      + (G4RandGauss.shoot 0 demoConstants.AHCALNoiseSigma
          (zeroGauss.advance ([3] : List ℚ).length)).1 = demoConstants.AHCALThreshold := by
    norm_num [demoConstants, G4RandGauss.shoot, zeroGauss, RandGauss.advance]
  ⟨⟨h1, h2⟩, (C15_strict_cut demoConstants [2] [4] 1 zeroGauss).1 h1,
    (C15_strict_cut demoConstants [3] [6] (3 / 2) zeroGauss).2 h2⟩

/-- C16: for every cell list of length `k`, the fold of `ApplyHGCALCut` (and of
`ApplyAHCut`) consumes exactly `k` draws: the generator it returns is the one it received
advanced by `k`, whatever the threshold and whether or not cells pass; cell `j` of the list
gets the draw at offset `j`; the fold returns nothing but the sum and the generator. -/
theorem C16_draws_consumed (c : HGCALTBConstants) (cells : List ℚ) (init : ℚ)
    (g : RandGauss) :
    (accumulate (ApplyHGCALCut c) cells init g).2 = g.advance cells.length ∧
    (accumulate (ApplyAHCut c) cells init g).2 = g.advance cells.length ∧
    (accumulate (ApplyHGCALCut c) cells init g).1
      = init + sumAbove c.CEEThreshold (calibrated c.MIPSilicon cells
          ((List.range cells.length).map
            (fun j => g.draws (g.pos + j) * c.CEENoiseSigma + 0))) ∧
    (accumulate (ApplyAHCut c) cells init g).1
      = init + sumAbove c.AHCALThreshold (calibrated c.MIPTile cells
          ((List.range cells.length).map
            (fun j => g.draws (g.pos + j) * c.AHCALNoiseSigma + 0))) := by
  rw [ApplyHGCALCut_eq, ApplyAHCut_eq]
  refine ⟨accumulate_cutStep_snd_advance _ _ _ _ _ _, accumulate_cutStep_snd_advance _ _ _ _ _ _,
    ?_, ?_⟩
  · rw [accumulate_cutStep_fst, noiseSamples_eq]
  · rw [accumulate_cutStep_fst, noiseSamples_eq]

/-- C17: with a non-negative threshold (and a positive divisor), the fold of
`ApplyHGCALCut` (and of `ApplyAHCut`) from 0 is non-negative for every cell list and every
generator state, also when the noise drives cells negative; hence with both thresholds
non-negative an `EndOfEventAction` that returns normally, from per-layer vectors of the
fixed layer counts, leaves only non-negative per-layer signals and adds a row whose three
per-detector totals and grand total are non-negative. -/
theorem C17_nonneg (c : HGCALTBConstants) :
    (0 < c.MIPSilicon → 0 ≤ c.CEEThreshold →
      ∀ (cells : List ℚ) (g : RandGauss), 0 ≤ (accumulate (ApplyHGCALCut c) cells 0 g).1) ∧
    (0 < c.MIPTile → 0 ≤ c.AHCALThreshold →
      ∀ (cells : List ℚ) (g : RandGauss), 0 ≤ (accumulate (ApplyAHCut c) cells 0 g).1) ∧
    (0 ≤ c.CEEThreshold → 0 ≤ c.AHCALThreshold →
      ∀ (sd : G4SDManager) (event : G4Event) (p q : Process),
        SignalsSized c p.action →
        EndOfEventAction c sd event p = Except.ok q →
        (∀ x ∈ q.action.fCEELayerSignals, 0 ≤ x) ∧
        (∀ x ∈ q.action.fCHELayerSignals, 0 ≤ x) ∧
        (∀ x ∈ q.action.fAHCALLayerSignals, 0 ≤ x) ∧
        ∃ row, q.ntuple = p.ntuple ++ [row] ∧
          0 ≤ row.CEETot ∧ 0 ≤ row.CHETot ∧ 0 ≤ row.AHCALTot ∧ 0 ≤ row.HGCALTot) := by
  refine ⟨?_, ?_, ?_⟩
  · intro _ hth cells g
    rw [ApplyHGCALCut_eq]
    exact accumulate_cutStep_nonneg _ _ _ hth cells g
  · intro _ hth cells g
    rw [ApplyAHCut_eq]
    exact accumulate_cutStep_nonneg _ _ _ hth cells g
  · intro hth1 hth2 sd event p q hsz hq
    obtain ⟨z1, z2, z3⟩ := hsz
    rw [EndOfEventAction_ok_iff] at hq
    obtain ⟨_, _, _, s1, s2, s3, _, _, _, l1, l2, l3, rfl⟩ := hq
    obtain ⟨n1, t1⟩ := nonneg_loop _ _ _ _ _ _ _ _ l1 z1 hth1
    obtain ⟨n2, t2⟩ := nonneg_loop _ _ _ _ _ _ _ _ l2 z2 hth1
    obtain ⟨n3, t3⟩ := nonneg_loop _ _ _ _ _ _ _ _ l3 z3 hth2
    refine ⟨n1, n2, n3, _, rfl, t1, t2, t3, ?_⟩
    simp only [finalProcess]
    linarith

/-- Witness of C17 under `demoConstants` (thresholds 1 / 2): the fold over the cell 1 with
draws -1, where the noise drives the cell to -1 / 2, and `EndOfEventAction` on
`demoEvent`. -/
theorem C17_nonneg_witness :
    (0 < demoConstants.MIPSilicon ∧ 0 ≤ demoConstants.CEEThreshold ∧
      0 < demoConstants.MIPTile ∧ 0 ≤ demoConstants.AHCALThreshold ∧
      SignalsSized demoConstants demoProcess.action ∧
      EndOfEventAction demoConstants demoSD demoEvent demoProcess = Except.ok demoFinal) ∧
    0 ≤ (accumulate (ApplyHGCALCut demoConstants) [1] 0 minusGauss).1 ∧
    0 ≤ (accumulate (ApplyAHCut demoConstants) [1] 0 minusGauss).1 ∧
    ((∀ x ∈ demoFinal.action.fCEELayerSignals, 0 ≤ x) ∧
      (∀ x ∈ demoFinal.action.fCHELayerSignals, 0 ≤ x) ∧
      (∀ x ∈ demoFinal.action.fAHCALLayerSignals, 0 ≤ x) ∧
      ∃ row, demoFinal.ntuple = demoProcess.ntuple ++ [row] ∧
        0 ≤ row.CEETot ∧ 0 ≤ row.CHETot ∧ 0 ≤ row.AHCALTot ∧ 0 ≤ row.HGCALTot) :=
  have hSi : 0 < demoConstants.MIPSilicon := by norm_num [demoConstants]
  have hTile : 0 < demoConstants.MIPTile := by norm_num [demoConstants]
  have hth1 : 0 ≤ demoConstants.CEEThreshold := by norm_num [demoConstants]
  have hth2 : 0 ≤ demoConstants.AHCALThreshold := by norm_num [demoConstants]
  have hsz : SignalsSized demoConstants demoProcess.action := by
    simp [SignalsSized, demoProcess, HGCALTBEventAction.construct, demoConstants]
  ⟨⟨hSi, hth1, hTile, hth2, hsz, demo_EndOfEventAction⟩,
    (C17_nonneg demoConstants).1 hSi hth1 [1] minusGauss,
    (C17_nonneg demoConstants).2.1 hTile hth2 [1] minusGauss,
    (C17_nonneg demoConstants).2.2 hth1 hth2 demoSD demoEvent demoProcess demoFinal hsz
      demo_EndOfEventAction⟩

/-- C18: `EndOfEventAction` overwrites. For two event action states with per-layer vectors
of the fixed layer counts that differ only in the contents of those vectors, on the same
event, generator state and ntuple, if the call returns normally from the first it returns
the very same process from the second (same per-layer vectors, same per-detector totals,
same grand total); from the first state reset by `BeginOfEventAction` it returns the same
per-layer vectors and the same totals; and it leaves `edep` and `fIntLayer` as they were. -/
theorem C18_overwrite (c : HGCALTBConstants) (sd : G4SDManager) (event : G4Event)
    (a1 a2 : HGCALTBEventAction) (g : RandGauss) (rows : List NtupleRow) (q : Process)
    (hs1 : SignalsSized c a1) (hs2 : SignalsSized c a2)
    (he : a2.edep = a1.edep) (hi : a2.fIntLayer = a1.fIntLayer)
    (hq : EndOfEventAction c sd event { action := a1, gauss := g, ntuple := rows }
      = Except.ok q) :
    EndOfEventAction c sd event { action := a2, gauss := g, ntuple := rows } = Except.ok q ∧
    (∃ q0 row row0,
      EndOfEventAction c sd event
          { action := BeginOfEventAction a1, gauss := g, ntuple := rows } = Except.ok q0 ∧
      q0.action.fCEELayerSignals = q.action.fCEELayerSignals ∧
      q0.action.fCHELayerSignals = q.action.fCHELayerSignals ∧
      q0.action.fAHCALLayerSignals = q.action.fAHCALLayerSignals ∧
      q.ntuple = rows ++ [row] ∧ q0.ntuple = rows ++ [row0] ∧
      row0.CEETot = row.CEETot ∧ row0.CHETot = row.CHETot ∧
      row0.AHCALTot = row.AHCALTot ∧ row0.HGCALTot = row.HGCALTot) ∧
    q.action.edep = a1.edep ∧ q.action.fIntLayer = a1.fIntLayer := by
  obtain ⟨x1, x2, x3⟩ := hs1
  obtain ⟨y1, y2, y3⟩ := hs2
  rw [EndOfEventAction_ok_iff] at hq
  obtain ⟨CEEHC, CHEHC, AHCALHC, s1, s2, s3, h1, h2, h3, l1, l2, l3, rfl⟩ := hq
  simp only at l1 l2 l3
  refine ⟨?_, ?_, rfl, rfl⟩
  · rw [EndOfEventAction_ok_iff]
    refine ⟨CEEHC, CHEHC, AHCALHC, s1, s2, s3, h1, h2, h3,
      forLoop_layerBody_overwrite _ _ _ _ _ _ _ _ _ l1 x1 y1,
      forLoop_layerBody_overwrite _ _ _ _ _ _ _ _ _ l2 x2 y2,
      forLoop_layerBody_overwrite _ _ _ _ _ _ _ _ _ l3 x3 y3, ?_⟩
    simp only [finalProcess, he, hi]
  · refine ⟨finalProcess
        { action := BeginOfEventAction a1, gauss := g, ntuple := rows } s1 s2 s3,
      _, _, ?_, rfl, rfl, rfl, rfl, rfl, rfl, rfl, rfl, rfl⟩
    rw [EndOfEventAction_ok_iff]
    exact ⟨CEEHC, CHEHC, AHCALHC, s1, s2, s3, h1, h2, h3,
      forLoop_layerBody_overwrite _ _ _ _ _ _ _ _ _ l1 x1 (by simp [BeginOfEventAction, x1]),
      forLoop_layerBody_overwrite _ _ _ _ _ _ _ _ _ l2 x2 (by simp [BeginOfEventAction, x2]),
      forLoop_layerBody_overwrite _ _ _ _ _ _ _ _ _ l3 x3 (by simp [BeginOfEventAction, x3]),
      rfl⟩

/-- Witness of C18: the freshly constructed event action (all zero vectors) and the event
action of `demoFinal` (non-zero vectors) differ only in the contents of the vectors;
`EndOfEventAction` on `demoEvent` returns `demoFinal` from both. -/
theorem C18_overwrite_witness :
    (SignalsSized demoConstants (HGCALTBEventAction.construct demoConstants) ∧
      SignalsSized demoConstants demoFinal.action ∧
      demoFinal.action.edep = (HGCALTBEventAction.construct demoConstants).edep ∧
      demoFinal.action.fIntLayer = (HGCALTBEventAction.construct demoConstants).fIntLayer ∧
      demoFinal.action.fCHELayerSignals
        ≠ (HGCALTBEventAction.construct demoConstants).fCHELayerSignals ∧
      EndOfEventAction demoConstants demoSD demoEvent
          { action := HGCALTBEventAction.construct demoConstants, gauss := demoGauss,
            ntuple := [] } = Except.ok demoFinal) ∧
    (EndOfEventAction demoConstants demoSD demoEvent
        { action := demoFinal.action, gauss := demoGauss, ntuple := [] }
      = Except.ok demoFinal ∧
    (∃ q0 row row0,
      EndOfEventAction demoConstants demoSD demoEvent
          { action := BeginOfEventAction (HGCALTBEventAction.construct demoConstants),
            gauss := demoGauss, ntuple := [] } = Except.ok q0 ∧
      q0.action.fCEELayerSignals = demoFinal.action.fCEELayerSignals ∧
      q0.action.fCHELayerSignals = demoFinal.action.fCHELayerSignals ∧
      q0.action.fAHCALLayerSignals = demoFinal.action.fAHCALLayerSignals ∧
      demoFinal.ntuple = [] ++ [row] ∧ q0.ntuple = [] ++ [row0] ∧
      row0.CEETot = row.CEETot ∧ row0.CHETot = row.CHETot ∧
      row0.AHCALTot = row.AHCALTot ∧ row0.HGCALTot = row.HGCALTot) ∧
    demoFinal.action.edep = (HGCALTBEventAction.construct demoConstants).edep ∧
    demoFinal.action.fIntLayer = (HGCALTBEventAction.construct demoConstants).fIntLayer) :=
  have hs1 : SignalsSized demoConstants (HGCALTBEventAction.construct demoConstants) := by
    simp [SignalsSized, HGCALTBEventAction.construct, demoConstants]
  have hs2 : SignalsSized demoConstants demoFinal.action := by
    simp [SignalsSized, demoFinal, demoConstants]
  have hne : demoFinal.action.fCHELayerSignals
      ≠ (HGCALTBEventAction.construct demoConstants).fCHELayerSignals := by
    norm_num [demoFinal, HGCALTBEventAction.construct, demoConstants, List.replicate]
  ⟨⟨hs1, hs2, rfl, rfl, hne, demo_EndOfEventAction⟩,
    C18_overwrite demoConstants demoSD demoEvent (HGCALTBEventAction.construct demoConstants)
      demoFinal.action demoGauss [] demoFinal hs1 hs2 rfl rfl demo_EndOfEventAction⟩

/-- C19: for a fixed cell list, a positive divisor and a fixed generator state, the fold of
`ApplyHGCALCut` (and of `ApplyAHCut`) from 0 is antitone in the threshold on non-negative
thresholds: for `0 ≤ t1 ≤ t2` the result under `t2` is at most the result under `t1`. Below
0 this can fail: for the cell 0 with draw -1 the result is -1 under threshold -2 and 0 under
threshold 0. -/
theorem C19_antitone_threshold (c : HGCALTBConstants) (cells : List ℚ) (g : RandGauss)
    (t1 t2 : ℚ) :
    (0 < c.MIPSilicon → 0 ≤ t1 → t1 ≤ t2 →
      (accumulate (ApplyHGCALCut { c with CEEThreshold := t2 }) cells 0 g).1
        ≤ (accumulate (ApplyHGCALCut { c with CEEThreshold := t1 }) cells 0 g).1) ∧
    (0 < c.MIPTile → 0 ≤ t1 → t1 ≤ t2 →
      (accumulate (ApplyAHCut { c with AHCALThreshold := t2 }) cells 0 g).1
        ≤ (accumulate (ApplyAHCut { c with AHCALThreshold := t1 }) cells 0 g).1) ∧
    ((-2 : ℚ) < 0 ∧ (-2 : ℚ) ≤ 0 ∧
      (accumulate (ApplyHGCALCut { demoConstants with CEEThreshold := -2 }) [0] 0
          minusGauss).1
        < (accumulate (ApplyHGCALCut { demoConstants with CEEThreshold := 0 }) [0] 0
            minusGauss).1) := by
  refine ⟨?_, ?_, ?_⟩
  · intro _ h0 h12
    rw [ApplyHGCALCut_eq, ApplyHGCALCut_eq]
    exact accumulate_cutStep_antitone _ _ t1 t2 h0 h12 cells g
  · intro _ h0 h12
    rw [ApplyAHCut_eq, ApplyAHCut_eq]
    exact accumulate_cutStep_antitone _ _ t1 t2 h0 h12 cells g
  · norm_num [accumulate, ApplyHGCALCut, G4RandGauss.shoot, demoConstants, minusGauss]

/-- Witness of C19 under `demoConstants` with thresholds 0 and 1 / 2 on the cells 2, 4, 1
with the alternating generator. -/
theorem C19_antitone_threshold_witness :
    (0 < demoConstants.MIPSilicon ∧ 0 < demoConstants.MIPTile ∧
      (0 : ℚ) ≤ 0 ∧ (0 : ℚ) ≤ 1 / 2) ∧
    (accumulate (ApplyHGCALCut { demoConstants with CEEThreshold := 1 / 2 }) [2, 4, 1] 0
        demoGauss).1
      ≤ (accumulate (ApplyHGCALCut { demoConstants with CEEThreshold := 0 }) [2, 4, 1] 0
          demoGauss).1 ∧
    (accumulate (ApplyAHCut { demoConstants with AHCALThreshold := 1 / 2 }) [2, 4, 1] 0
        demoGauss).1
      ≤ (accumulate (ApplyAHCut { demoConstants with AHCALThreshold := 0 }) [2, 4, 1] 0
          demoGauss).1 :=
  have hSi : 0 < demoConstants.MIPSilicon := by norm_num [demoConstants]
  have hTile : 0 < demoConstants.MIPTile := by norm_num [demoConstants]
  ⟨⟨hSi, hTile, le_refl 0, by norm_num⟩,
    (C19_antitone_threshold demoConstants [2, 4, 1] demoGauss 0 (1 / 2)).1 hSi (le_refl 0)
      (by norm_num),
    (C19_antitone_threshold demoConstants [2, 4, 1] demoGauss 0 (1 / 2)).2.1 hTile (le_refl 0)
      (by norm_num)⟩

end HGCALTB
